import Mathlib

/-!
Verification of the `types` package (deep less / deep equal / deep sort).

The Go values the package operates on are embedded as the inductive `GoVal`.
A reference (`*T`) is represented by `vPtr`, carrying the pointee type, and
either `none` (a nil pointer) or `some (a, target)` where `a : Nat` is the
reference identity (the machine address used by the package's cycle-tracking
`pointers` set) and `target` is the pointee.  A cyclic heap value is
represented by a finite unrolling in which the same identity recurs; the
engine's visited set stops it from descending past a repeated identity, so a
sufficiently deep unrolling behaves exactly like the cyclic original.

Modelling notes, applying throughout:
* integer widths are collapsed: the code widens every signed kind with
  `reflect.Value.Int` to `int64` and every unsigned kind (including
  `uintptr`) with `Uint` to `uint64` before comparing, so `vInt : Int` and
  `vUint : Nat` carry the widened values;
* `float32`/`float64` values are represented symbolically as `GoFloat`
  (NaN, the two infinities, or a finite rational), which is exact for the
  comparisons `math.IsNaN`, `math.IsInf(·, -1)`, `<` and `==` that the code
  performs;
* Go map iteration order is unspecified and may differ between invocations;
  the embedding threads an explicit reordering function `MapOrd` that is
  applied to a map's entry list wherever the code iterates a map
  (`MapKeys`, `MapRange`), so one choice of `MapOrd` corresponds to one
  possible run;
* `sort.Slice` runs insertion sort for the slice lengths arising here
  (Go's pdqsort uses insertion sort below length 12, and for comparators
  that are strict weak orders every comparison sort agrees on the result);
  `insRev`/`goSort` implement exactly Go's insertion sort (bubble the new
  element left while `less(a[j], a[j-1])`);
* the interface kind is not modelled: the claims' operands are concrete
  typed values, and `reflect.ValueOf` unwraps the `interface{}` argument,
  so the interface kind would occur only for interface-typed fields, which
  no claim involves;
* channel identity is not modelled (`vChan` keeps only the buffered length,
  which is all the comparison reads);
* fuel (`Nat`) makes the recursion manifestly total; `GoErr.fuelOut` is a
  modelling artifact, not a behavior of the code, and every concrete claim
  is evaluated with ample fuel.

Panics of the code are modelled as `Except.error`:
`typeMismatch` is the package's own `panic("unequal types")`,
`zeroValue` is reflect's panic on using a zero `reflect.Value` (untyped nil
operand, or a failed `MapIndex` lookup), `uncomparable` is the runtime panic
`comparing uncomparable type` raised by `==` on interfaces holding func
values, and `invalidArg` is `DistinctInPlace`'s `invalid non *[]T type`
panic.
-/

namespace Types

/-- Symbolic float64: NaN, the infinities, or a finite rational. -/
inductive GoFloat where
  | nan
  | ninf
  | pinf
  | fin (q : Rat)
deriving DecidableEq, Repr

/-- `math.IsNaN`. -/
def GoFloat.isNaN : GoFloat → Bool
  | .nan => true
  | _ => false

/-- `math.IsInf(·, -1)`. -/
def GoFloat.isNinf : GoFloat → Bool
  | .ninf => true
  | _ => false

/-- IEEE `<` on float64 (always false when either side is NaN). -/
def fltLt : GoFloat → GoFloat → Bool
  | .nan, _ => false
  | _, .nan => false
  | .ninf, .ninf => false
  | .ninf, _ => true
  | _, .ninf => false
  | .pinf, .pinf => false
  | _, .pinf => true
  | .pinf, _ => false
  | .fin a, .fin b => a < b

/-- IEEE `==` on float64 (always false when either side is NaN). -/
def fltIeeeEq : GoFloat → GoFloat → Bool
  | .nan, _ => false
  | _, .nan => false
  | a, b => a == b

/-- Go `<` on strings: lexicographic byte order (strings are represented by
their byte lists). -/
def bytesLt : List Nat → List Nat → Bool
  | [], [] => false
  | [], _ :: _ => true
  | _ :: _, [] => false
  | a :: as, b :: bs => if a < b then true else if b < a then false else bytesLt as bs

/-- The runtime kind of a type (`reflect.Kind`), with integer and float
widths collapsed as explained in the module docstring. -/
inductive GoKind where
  | kBool | kInt | kUint | kFloat | kComplex | kString
  | kChan | kFunc | kUptr | kPtr | kSlice | kArray | kMap | kStruct
deriving DecidableEq, Repr

/-- Runtime types (`reflect.Type`).  Named types (in particular recursive
struct types) are represented by `tNamed` with their kind and a distinct
identity, matching Go's type-descriptor identity. -/
inductive GoType where
  | tBool | tInt | tUint | tFloat | tComplex | tString | tUptr
  | tChan (e : GoType)
  | tPtr (e : GoType)
  | tSlice (e : GoType)
  | tArray (n : Nat) (e : GoType)
  | tMap (k v : GoType)
  | tFunc (id : Nat)
  | tNamed (k : GoKind) (id : Nat)
deriving DecidableEq, Repr

/-- `reflect.Type.Kind`. -/
def kindOf : GoType → GoKind
  | .tBool => .kBool
  | .tInt => .kInt
  | .tUint => .kUint
  | .tFloat => .kFloat
  | .tComplex => .kComplex
  | .tString => .kString
  | .tUptr => .kUptr
  | .tChan _ => .kChan
  | .tPtr _ => .kPtr
  | .tSlice _ => .kSlice
  | .tArray _ _ => .kArray
  | .tMap _ _ => .kMap
  | .tFunc _ => .kFunc
  | .tNamed k _ => k

/-- A runtime value.  Struct fields carry their exported flag
(`StructField.PkgPath == ""`); maps carry their entries as a list (the
storage order, reshuffled by a `MapOrd` wherever the code iterates). -/
inductive GoVal where
  | vBool (b : Bool)
  | vInt (i : Int)
  | vUint (u : Nat)
  | vFloat (f : GoFloat)
  | vComplex (re im : GoFloat)
  | vString (s : List Nat)
  | vChan (et : GoType) (buffered : Nat)
  | vFunc (ft : GoType) (id : Nat)
  | vUptr (id : Nat)
  | vPtr (et : GoType) (tgt : Option (Nat × GoVal))
  | vArray (et : GoType) (xs : List GoVal)
  | vSlice (et : GoType) (xs : List GoVal)
  | vMap (kt vt : GoType) (entries : List (GoVal × GoVal))
  | vStruct (ty : GoType) (fields : List (Bool × GoVal))

/-- `reflect.Value.Type`. -/
def typeOf : GoVal → GoType
  | .vBool _ => .tBool
  | .vInt _ => .tInt
  | .vUint _ => .tUint
  | .vFloat _ => .tFloat
  | .vComplex _ _ => .tComplex
  | .vString _ => .tString
  | .vChan et _ => .tChan et
  | .vFunc ft _ => ft
  | .vUptr _ => .tUptr
  | .vPtr et _ => .tPtr et
  | .vArray et xs => .tArray xs.length et
  | .vSlice et _ => .tSlice et
  | .vMap kt vt _ => .tMap kt vt
  | .vStruct ty _ => ty

/-- Faults (panics) of the code, plus the fuel-exhaustion artifact. -/
inductive GoErr where
  | typeMismatch
  | zeroValue
  | uncomparable
  | invalidArg
  | fuelOut
deriving DecidableEq, Repr

/-- The transient visited set of reference identities (`type pointers`). -/
abbrev Ptrs := List Nat

/-- `(*pointers).hasOrAdd`: report whether the identity was present and add
it if it was not. -/
def hasOrAdd (p : Ptrs) (a : Nat) : Bool × Ptrs :=
  if p.contains a then (true, p) else (false, a :: p)

/-- An iteration order for map entries: one possible order in which a Go
runtime map iteration (`MapKeys` / `MapRange`) could yield the entries.  A
legitimate order is a permutation of the entries. -/
abbrev MapOrd := List (GoVal × GoVal) → List (GoVal × GoVal)

/-- `i64lt`. -/
def i64lt (l r : Int) : Bool × Bool :=
  if l = r then (false, true) else (decide (l < r), false)

/-- `u64lt`. -/
def u64lt (l r : Nat) : Bool × Bool :=
  if l = r then (false, true) else (decide (l < r), false)

/-- `f64lt`: NaN first, then negative infinity, then IEEE order. -/
def f64lt (l r : GoFloat) : Bool × Bool :=
  if l.isNaN then (!r.isNaN, r.isNaN)
  else if r.isNaN then (false, false)
  else if l.isNinf then (!r.isNinf, r.isNinf)
  else if r.isNinf then (false, false)
  else (fltLt l r, fltIeeeEq l r)

/-- `c128lt`: real part first, imaginary on ties. -/
def c128lt (lre lim rre rim : GoFloat) : Bool × Bool :=
  let r := f64lt lre rre
  if r.2 then f64lt lim rim else r

/- Go `==`, as used by map-key lookup (`MapIndex`) on comparable types:
structural equality except that NaN is unequal to everything (including
itself), pointers compare by identity, and struct `==` compares all fields
(exported or not).  Channel identity is not modelled; func/slice/map values
are not comparable in Go and yield `false` here (they cannot be map keys). -/
mutual

/-- Go `==` on a pair of comparable values (see the comment above). -/
def goEqB : GoVal → GoVal → Bool
  | .vBool a, .vBool b => a == b
  | .vInt a, .vInt b => a == b
  | .vUint a, .vUint b => a == b
  | .vFloat a, .vFloat b => fltIeeeEq a b
  | .vComplex a b, .vComplex c d => fltIeeeEq a c && fltIeeeEq b d
  | .vString a, .vString b => a == b
  | .vUptr a, .vUptr b => a == b
  | .vPtr _ none, .vPtr _ none => true
  | .vPtr _ (some (a, _)), .vPtr _ (some (b, _)) => a == b
  | .vArray _ xs, .vArray _ ys => goEqL xs ys
  | .vStruct _ fs, .vStruct _ gs => goEqF fs gs
  | _, _ => false

def goEqL : List GoVal → List GoVal → Bool
  | [], [] => true
  | x :: xs, y :: ys => goEqB x y && goEqL xs ys
  | _, _ => false

def goEqF : List (Bool × GoVal) → List (Bool × GoVal) → Bool
  | [], [] => true
  | (_, x) :: xs, (_, y) :: ys => goEqB x y && goEqF xs ys
  | _, _ => false

end

/-- Go map lookup `rv.MapIndex(k)`: find the value stored under a key equal
(by Go `==`) to `k`. -/
def mapLookup (k : GoVal) : List (GoVal × GoVal) → Option GoVal
  | [] => none
  | (k2, v) :: rest => if goEqB k k2 then some v else mapLookup k rest

/-- The short-circuiting comparison loop shared by the slice/array element
pass and the sorted-key pass of the map case: starting from the `(lt, eq)`
pair already in hand, compare each pair in turn, returning `(lt, false)` at
the first unequal pair, and the last computed pair if all are equal. -/
def pairLoopFrom (cmp : GoVal → GoVal → Except GoErr (Bool × Bool)) :
    Bool × Bool → List (GoVal × GoVal) → Except GoErr (Bool × Bool)
  | init, [] => .ok init
  | _, (a, b) :: rest => do
    let r ← cmp a b
    if r.2 then pairLoopFrom cmp r rest else .ok (r.1, false)

/-- The values pass of the map case (`lv.MapRange()` followed by
`rv.MapIndex`): iterate the left map's entries in the given order, look the
key up on the right, compare the two values, short-circuit on the first
unequal pair.  A failed lookup hands a zero `reflect.Value` to `lteq`,
which panics. -/
def valuesLoop (cmp : GoVal → GoVal → Except GoErr (Bool × Bool))
    (res : List (GoVal × GoVal)) :
    Bool × Bool → List (GoVal × GoVal) → Except GoErr (Bool × Bool)
  | init, [] => .ok init
  | _, (k, lval) :: rest =>
    match mapLookup k res with
    | none => .error .zeroValue
    | some rval => do
      let r ← cmp lval rval
      if r.2 then valuesLoop cmp res r rest else .ok (r.1, false)

/-- The exported-field loop of `lteq` on structs: skip unexported fields,
short-circuit on the first unequal exported field, report equal at the
end. -/
def structFields (cmp : GoVal → GoVal → Except GoErr (Bool × Bool)) :
    List (Bool × GoVal) → List (Bool × GoVal) → Except GoErr (Bool × Bool)
  | [], _ => .ok (false, true)
  | _, [] => .ok (false, true)
  | (exp, lf) :: ls, (_, rf) :: rs =>
    if exp then do
      let r ← cmp lf rf
      if r.2 then structFields cmp ls rs else .ok (r.1, false)
    else structFields cmp ls rs

/-- One bubbling step of Go's insertion sort (`sort.Slice` on the short
slices arising here): insert `x` into the already-sorted prefix, given in
reversed order, moving left while `less(x, prev)`. -/
def insRev (lt : α → α → Bool) (x : α) : List α → List α
  | [] => [x]
  | y :: rev => if lt x y then y :: insRev lt x rev else x :: y :: rev

/-- Go's insertion sort, accumulating the sorted prefix in reversed order. -/
def sortRev (lt : α → α → Bool) : List α → List α → List α
  | acc, [] => acc
  | acc, x :: rest => sortRev lt (insRev lt x acc) rest

/-- Go's insertion sort over a comparator. -/
def goSort (lt : α → α → Bool) (l : List α) : List α :=
  (sortRev lt [] l).reverse

/-- Monadic variant of `insRev`, for comparators that can fault. -/
def insRevM (cmpLt : α → α → Except GoErr Bool) (x : α) :
    List α → Except GoErr (List α)
  | [] => .ok [x]
  | y :: rev => do
    let b ← cmpLt x y
    if b then do
      let r ← insRevM cmpLt x rev
      .ok (y :: r)
    else .ok (x :: y :: rev)

/-- Monadic variant of `sortRev`. -/
def sortRevM (cmpLt : α → α → Except GoErr Bool) :
    List α → List α → Except GoErr (List α)
  | acc, [] => .ok acc
  | acc, x :: rest => do
    let acc2 ← insRevM cmpLt x acc
    sortRevM cmpLt acc2 rest

/-- Monadic variant of `goSort` (the fallback `sort.Slice` call whose
comparator is `lteq` and can therefore fault). -/
def goSortM (cmpLt : α → α → Except GoErr Bool) (l : List α) :
    Except GoErr (List α) := do
  let racc ← sortRevM cmpLt [] l
  .ok racc.reverse

/-- The key half of the map case of `lteqKind`: collect both key lists (in
the given iteration orders), sort each with `sort.Slice` whose comparator
is `lteq`'s less component, and compare the two sorted key lists with the
slice logic, starting from the `(len<, len=)` pair already in hand. -/
def mapKeysStage (cmp : GoVal → GoVal → Except GoErr (Bool × Bool))
    (init : Bool × Bool) (lents rents : List (GoVal × GoVal)) :
    Except GoErr (Bool × Bool) := do
  let cmpLt := fun a b => (cmp a b).map (fun r => r.1)
  let slk ← goSortM cmpLt (lents.map (fun e => e.1))
  let srk ← goSortM cmpLt (rents.map (fun e => e.1))
  pairLoopFrom cmp init (slk.zip srk)

mutual

/-- `lteq`: panic (`unequal types`) on distinct operand types, then
dispatch on the kind; for structs, compare exported fields in declaration
order, short-circuiting, and report equal when every field is equal. -/
def lteqF (ord : MapOrd) : Nat → Ptrs → GoVal → GoVal → Except GoErr (Bool × Bool)
  | 0, _, _, _ => .error .fuelOut
  | n+1, p, lv, rv =>
    if typeOf lv ≠ typeOf rv then .error .typeMismatch
    else
      match lv, rv with
      | .vStruct _ lfs, .vStruct _ rfs =>
        structFields (fun a b => lteqKindF ord n p a b) lfs rfs
      | _, _ => lteqKindF ord n p lv rv

/-- `lteqKind`: the per-kind comparison rules.  The func case is Go's `==`
on two interfaces holding func values, which panics at run time (func
types are not comparable); the final catch-all mirrors the code's
`default` branch (`reflect.Invalid`) and is unreachable for same-typed
operands. -/
def lteqKindF (ord : MapOrd) : Nat → Ptrs → GoVal → GoVal → Except GoErr (Bool × Bool)
  | 0, _, _, _ => .error .fuelOut
  | n+1, p, lv, rv =>
    match lv, rv with
    | .vBool l, .vBool r => .ok (!l && r, l == r)
    | .vInt l, .vInt r => .ok (i64lt l r)
    | .vUint l, .vUint r => .ok (u64lt l r)
    | .vFloat l, .vFloat r => .ok (f64lt l r)
    | .vComplex lre lim, .vComplex rre rim => .ok (c128lt lre lim rre rim)
    | .vChan _ ll, .vChan _ lr => .ok (decide (ll < lr), decide (ll = lr))
    | .vFunc _ _, .vFunc _ _ => .error .uncomparable
    | .vUptr l, .vUptr r => .ok (false, l == r)
    | .vString l, .vString r => .ok (bytesLt l r, l == r)
    | .vStruct _ _, .vStruct _ _ => lteqF ord n p lv rv
    | .vArray _ lxs, .vArray _ rxs =>
      let ll := lxs.length
      let lr := rxs.length
      if decide (ll = lr) then
        pairLoopFrom (fun a b => lteqF ord n p a b)
          (decide (ll < lr), decide (ll = lr)) (lxs.zip rxs)
      else .ok (decide (ll < lr), decide (ll = lr))
    | .vSlice _ lxs, .vSlice _ rxs =>
      let ll := lxs.length
      let lr := rxs.length
      if decide (ll = lr) then
        pairLoopFrom (fun a b => lteqF ord n p a b)
          (decide (ll < lr), decide (ll = lr)) (lxs.zip rxs)
      else .ok (decide (ll < lr), decide (ll = lr))
    | .vMap _ _ lents, .vMap _ _ rents =>
      let ll := lents.length
      let lr := rents.length
      if decide (ll = lr) then do
        let kres ← mapKeysStage (fun a b => lteqF ord n p a b)
          (decide (ll < lr), decide (ll = lr)) (ord lents) (ord rents)
        if kres.2 then
          valuesLoop (fun a b => lteqF ord n p a b) rents kres (ord lents)
        else .ok kres
      else .ok (decide (ll < lr), decide (ll = lr))
    | .vPtr _ ltgt, .vPtr _ rtgt =>
      match ltgt, rtgt with
      | none, rt => .ok (rt.isSome, rt.isNone)
      | some _, none => .ok (false, false)
      | some (la, ltv), some (ra, rtv) =>
        let lres := hasOrAdd p la
        let rres := hasOrAdd lres.2 ra
        if lres.1 then .ok (!rres.1, rres.1)
        else if rres.1 then .ok (false, false)
        else lteqKindF ord n rres.2 ltv rtv
    | _, _ => .ok (false, false)

end

/-- The shared entry of `Less`/`Equal`/`Compare`: `reflect.ValueOf` of an
untyped nil argument is the zero `reflect.Value`, and `lteq`'s very first
step, `lv.Type()` (or `rv.Type()`), panics on a zero value. -/
def lteqTop (ord : MapOrd) (n : Nat) :
    Option GoVal → Option GoVal → Except GoErr (Bool × Bool)
  | some lv, some rv => lteqF ord n [] lv rv
  | _, _ => .error .zeroValue

/-- `Less`. -/
def Less (ord : MapOrd) (n : Nat) (l r : Option GoVal) : Except GoErr Bool :=
  (lteqTop ord n l r).map (fun x => x.1)

/-- `Equal`. -/
def Equal (ord : MapOrd) (n : Nat) (l r : Option GoVal) : Except GoErr Bool :=
  (lteqTop ord n l r).map (fun x => x.2)

/-- `Compare`. -/
def Compare (ord : MapOrd) (n : Nat) (l r : Option GoVal) : Except GoErr Int :=
  (lteqTop ord n l r).map (fun x => if x.1 then -1 else if x.2 then 0 else 1)

/-- The element comparator of `innerSort`'s type-erased fast paths, one per
primitive element kind (`!l && r` for bools, `<` for the integer families,
IEEE `<` for floats, byte order for strings).  The accessor defaults are
unreachable for well-typed slices, whose elements all carry the kind. -/
def fastLt : GoKind → GoVal → GoVal → Bool
  | .kBool, .vBool a, .vBool b => !a && b
  | .kInt, .vInt a, .vInt b => decide (a < b)
  | .kUint, .vUint a, .vUint b => decide (a < b)
  | .kFloat, .vFloat a, .vFloat b => fltLt a b
  | .kString, .vString a, .vString b => bytesLt a b
  | _, _, _ => false

/-- The `Slice` case of `innerSort`: a fast path per primitive element
kind, and otherwise `sort.Slice` with `lteq` as the comparator (sharing the
traversal's visited set `p`). -/
def sortSliceElems (ord : MapOrd) (n : Nat) (p : Ptrs) (et : GoType)
    (xs : List GoVal) : Except GoErr (List GoVal) :=
  match kindOf et with
  | .kBool => .ok (goSort (fastLt .kBool) xs)
  | .kInt => .ok (goSort (fastLt .kInt) xs)
  | .kUint => .ok (goSort (fastLt .kUint) xs)
  | .kFloat => .ok (goSort (fastLt .kFloat) xs)
  | .kString => .ok (goSort (fastLt .kString) xs)
  | _ => goSortM (fun a b => (lteqF ord n p a b).map (fun r => r.1)) xs

mutual

/-- `innerSort`: recursively locate and sort slices (and addressable
arrays) in place.  `addr` tracks `reflect.Value.CanAddr()` of the visited
value: false at the top (`reflect.ValueOf` of an argument) and for map
values (`MapIter.Value` copies), true after dereferencing a pointer; struct
fields and array elements inherit it, slice elements are always
addressable.  The returned value is the (possibly mutated) input; the
returned flag is `innerSort`'s `sortable` result. -/
def innerSortF (ord : MapOrd) : Nat → Ptrs → Bool → GoVal → Except GoErr (Bool × GoVal)
  | 0, _, _, _ => .error .fuelOut
  | n+1, p, addr, v =>
    match v with
    | .vPtr et tgt =>
      match tgt with
      | none => .ok (true, .vPtr et tgt)
      | some (a, tv) =>
        let hres := hasOrAdd p a
        if hres.1 then .ok (true, .vPtr et tgt)
        else do
          let r ← innerSortF ord n hres.2 true tv
          .ok (r.1, .vPtr et (some (a, r.2)))
    | .vArray et xs =>
      if xs.length = 0 then .ok (true, .vArray et xs)
      else if !addr then .ok (false, .vArray et xs)
      else do
        let ys ← sortSliceElems ord n p et xs
        .ok (true, .vArray et ys)
    | .vSlice et xs => do
      let ys ← sortSliceElems ord n p et xs
      .ok (true, .vSlice et ys)
    | .vMap kt vt es => do
      let r ← mapSortLoop ord n p (ord es)
      .ok (r.1, .vMap kt vt r.2)
    | .vStruct ty fs => do
      let fs2 ← structSortLoop ord n p addr fs
      .ok (true, .vStruct ty fs2)
    | other => .ok (false, other)

/-- The `Map` case of `innerSort`: visit each value (an unaddressable
copy), breaking out of the loop at the first unsortable one (leaving the
remaining values unvisited); the loop's named `sortable` result is the last
visit's result, `false` for an empty map. -/
def mapSortLoop (ord : MapOrd) : Nat → Ptrs → List (GoVal × GoVal) →
    Except GoErr (Bool × List (GoVal × GoVal))
  | 0, _, _ => .error .fuelOut
  | _+1, _, [] => .ok (false, [])
  | n+1, p, (k, val) :: rest => do
    let r ← innerSortF ord n p false val
    if r.1 then
      match rest with
      | [] => .ok (r.1, [(k, r.2)])
      | _ :: _ => do
        let rr ← mapSortLoop ord n p rest
        .ok (rr.1, (k, r.2) :: rr.2)
    else .ok (false, (k, r.2) :: rest)

/-- The `Struct` case of `innerSort`: visit every exported field (their
sortable results are discarded), skip unexported fields. -/
def structSortLoop (ord : MapOrd) : Nat → Ptrs → Bool → List (Bool × GoVal) →
    Except GoErr (List (Bool × GoVal))
  | 0, _, _, _ => .error .fuelOut
  | _+1, _, _, [] => .ok []
  | n+1, p, addr, (exp, fv) :: rest =>
    if exp then do
      let r ← innerSortF ord n p addr fv
      let rest2 ← structSortLoop ord n p addr rest
      .ok ((exp, r.2) :: rest2)
    else do
      let rest2 ← structSortLoop ord n p addr rest
      .ok ((exp, fv) :: rest2)

end

/-- `Sort`: run `innerSort` on the argument with a fresh visited set; the
argument itself (obtained from `reflect.ValueOf`) is unaddressable. -/
def SortE (ord : MapOrd) (n : Nat) (v : GoVal) : Except GoErr (Bool × GoVal) :=
  innerSortF ord n [] false v

/-- The argument validation of `DistinctInPlace`: an untyped nil argument
panics in `v.Type()` (zero `reflect.Value`); otherwise the code panics
(`invalid non *[]T type`) unless the argument's kind is pointer and
`v.Elem()`'s kind is slice — for a nil pointer `v.Elem()` is the zero
value, whose kind is `Invalid`, so a nil pointer panics too.  On success it
returns the pointer's pointee type, identity, and the slice. -/
def argCheck : Option GoVal → Except GoErr (GoType × Nat × GoType × List GoVal)
  | none => .error .zeroValue
  | some (.vPtr et (some (a, tgt))) =>
    if kindOf et = .kSlice then
      match tgt with
      | .vSlice et2 xs => .ok (et, a, et2, xs)
      | _ => .error .invalidArg
    else .error .invalidArg
  | some _ => .error .invalidArg

/-- Whether the argument is a handle `DistinctInPlace` accepts: a non-nil
pointer directly to a slice. -/
def goodArg : Option GoVal → Bool
  | some (.vPtr et (some (_, .vSlice _ _))) => kindOf et = .kSlice
  | _ => false

/-- The compaction loop of `DistinctInPlace`: starting from the first
element as the last-kept element, skip each next element that is
`lteq`-equal to the last-kept one, otherwise keep it (it becomes the new
last-kept element); the result is the kept prefix the code truncates to. -/
def compactGo (cmp : GoVal → GoVal → Except GoErr (Bool × Bool)) (lastv : GoVal) :
    List GoVal → Except GoErr (List GoVal)
  | [] => .ok [lastv]
  | x :: rest => do
    let r ← cmp lastv x
    if r.2 then compactGo cmp lastv rest
    else do
      let ys ← compactGo cmp x rest
      .ok (lastv :: ys)

/-- `DistinctInPlace`: validate the argument, sort the slice (with a fresh
visited set, empty again after the sort), return early when it is empty,
then compact and truncate.  The result is the updated argument. -/
def DistinctInPlaceE (ord : MapOrd) (n : Nat) (arg : Option GoVal) :
    Except GoErr GoVal := do
  let (et, a, et2, xs) ← argCheck arg
  let r ← innerSortF ord n [] true (.vSlice et2 xs)
  match r.2 with
  | .vSlice _ ys =>
    match ys with
    | [] => .ok (.vPtr et (some (a, .vSlice et2 ys)))
    | y0 :: rest => do
      let kept ← compactGo (fun x y => lteqF ord n [] x y) y0 rest
      .ok (.vPtr et (some (a, .vSlice et2 kept)))
  | other => .ok (.vPtr et (some (a, other)))

/-- Modelled from the spec (claim C2 as stated): after the sorted key
lists compare equal, visit the keys in ascending sorted order and compare,
for each key, the left map's value with the right map's value under the
same key, short-circuiting on the first non-equal pair, whose verdict
decides; if every pair is equal the maps are equal. -/
def sortedKeyWalk (cmp : GoVal → GoVal → Except GoErr (Bool × Bool))
    (les res : List (GoVal × GoVal)) : List GoVal → Except GoErr (Bool × Bool)
  | [] => .ok (false, true)
  | k :: rest =>
    match mapLookup k les, mapLookup k res with
    | some lval, some rval => do
      let r ← cmp lval rval
      if r.2 then sortedKeyWalk cmp les res rest else .ok (r.1, false)
    | _, _ => .error .zeroValue

/-- Modelled from the spec (claim C2 as stated), the whole values pass:
sort the keys ascending with the engine's less relation, then walk them in
that order. -/
def specSortedValuesPass (cmp : GoVal → GoVal → Except GoErr (Bool × Bool))
    (les res : List (GoVal × GoVal)) : Except GoErr (Bool × Bool) := do
  let skeys ← goSortM (fun a b => (cmp a b).map (fun r => r.1)) (les.map (fun e => e.1))
  sortedKeyWalk cmp les res skeys

/-- Modelled from the amended claim C2: the values pass visits the left
map's entries in the map's iteration order, compares each left value with
the right value found under the same key, and the verdict of the first
non-equal pair decides; if every pair is equal the maps are equal. -/
def specIterValuesPass (cmp : GoVal → GoVal → Except GoErr (Bool × Bool))
    (res : List (GoVal × GoVal)) : List (GoVal × GoVal) → Except GoErr (Bool × Bool)
  | [] => .ok (false, true)
  | (k, lval) :: rest =>
    match mapLookup k res with
    | none => .error .zeroValue
    | some rval => do
      let r ← cmp lval rval
      if r.2 then specIterValuesPass cmp res rest else .ok (r.1, false)

mutual

/-- Whether a value contains no keyed collection (no map), anywhere,
including behind references (which carry their target inline in this
embedding). -/
def mapFree : GoVal → Bool
  | .vMap _ _ _ => false
  | .vPtr _ none => true
  | .vPtr _ (some (_, t)) => mapFree t
  | .vArray _ xs => mapFreeL xs
  | .vSlice _ xs => mapFreeL xs
  | .vStruct _ fs => mapFreeF fs
  | _ => true

/-- `mapFree` over the elements of a sequence. -/
def mapFreeL : List GoVal → Bool
  | [] => true
  | x :: xs => mapFree x && mapFreeL xs

/-- `mapFree` over the fields of a struct. -/
def mapFreeF : List (Bool × GoVal) → Bool
  | [] => true
  | (_, v) :: fs => mapFree v && mapFreeF fs

end

/-- The invariant that a comparison never reports less and equal at once:
whenever it succeeds with the equal flag set, the less flag is clear. -/
def cmpInv (cmp : GoVal → GoVal → Except GoErr (Bool × Bool)) : Prop :=
  ∀ a b lt, cmp a b = .ok (lt, true) → lt = false

/-- Modelled from the spec (claim C8): the compaction pass keeps the
last-kept element, skips each subsequent element equal to it, and on the
first non-equal element advances the last-kept cursor to that element
(specialized to integer elements, on which engine equality is equality). -/
def dedupFrom (lastKept : Int) : List Int → List Int
  | [] => [lastKept]
  | x :: rest =>
    if x = lastKept then dedupFrom lastKept rest else lastKept :: dedupFrom x rest

/-- An `[]int` value. -/
def ints (l : List Int) : GoVal := .vSlice .tInt (l.map .vInt)

/-- The `map[int]int` maps of the order-dependence counterexamples:
`lmapC` is `{1: 1, 2: 4}` and `rmapC` is `{1: 2, 2: 3}`.  Their sizes are
equal and their key sets coincide, but under key `1` the left value is
smaller while under key `2` it is larger, so the verdict of the values
pass depends on which entry a map iteration yields first. -/
def lmapEntries : List (GoVal × GoVal) := [(.vInt 1, .vInt 1), (.vInt 2, .vInt 4)]

/-- Right-hand entries of the counterexample maps. -/
def rmapEntries : List (GoVal × GoVal) := [(.vInt 1, .vInt 2), (.vInt 2, .vInt 3)]

/-- The left counterexample map. -/
def lmapC : GoVal := .vMap .tInt .tInt lmapEntries

/-- The right counterexample map. -/
def rmapC : GoVal := .vMap .tInt .tInt rmapEntries

/-- A map iteration order that yields the entries backwards — a legitimate
order, since it permutes the entries. -/
def revOrd : MapOrd := fun es => es.reverse

/-- The named type of the test suite's `type recursive2 struct { Inner
*recursive2 }`. -/
def tR2 : GoType := .tNamed .kStruct 0

/-- A type-correct filler standing beyond the depth the engine can reach
(the traversal cycle-closes before dereferencing it). -/
def r2stop : GoVal := .vStruct tR2 [(true, .vPtr tR2 none)]

/-- `newRecursive2(1)` — a value `x` with `x.Inner = &x` — unrolled twice:
the reference identity `1` recurs, so the engine cycle-closes exactly
where the cyclic original would. -/
def r2d1 : GoVal :=
  .vStruct tR2 [(true, .vPtr tR2 (some (1,
    .vStruct tR2 [(true, .vPtr tR2 (some (1, r2stop)))])))]

/-- A second, separately allocated `newRecursive2(1)` (distinct identity). -/
def r2d1b : GoVal :=
  .vStruct tR2 [(true, .vPtr tR2 (some (4,
    .vStruct tR2 [(true, .vPtr tR2 (some (4, r2stop)))])))]

/-- `newRecursive2(2)` — `y.Inner = &i`, `i.Inner = &y` — unrolled with
identities `2` and `3`. -/
def r2d2 : GoVal :=
  .vStruct tR2 [(true, .vPtr tR2 (some (2,
    .vStruct tR2 [(true, .vPtr tR2 (some (3,
      .vStruct tR2 [(true, .vPtr tR2 (some (2, r2stop)))])))])))]

/-- C10: calling `Less`, `Equal` or `Compare` with untyped nil interface
arguments faults (the zero `reflect.Value` panics in `Type()`), even
though the operands are identical, and this fault is distinct from the
`unequal types` shape-mismatch panic. -/
theorem c10_nil_operands_fault :
    Less id 10 none none = .error .zeroValue ∧
    Equal id 10 none none = .error .zeroValue ∧
    Compare id 10 none none = .error .zeroValue ∧
    decide (GoErr.zeroValue = GoErr.typeMismatch) = false :=
  ⟨rfl, rfl, rfl, rfl⟩

/-- C3 (failing input of the code bug): `Equal(v, v)` is false whenever the
same non-nil reference appears on both sides — `hasOrAdd` marks the left
identity visited and the right occurrence of the same identity then looks
cycle-closing, so `Equal(&x, &x)` with `x = 7` returns false (and `Compare`
returns 1); a cyclic value compared against itself (same identities) is not
equal either, while two separately-built isomorphic cyclic values (distinct
identities), as in the package's tests, do compare equal. -/
theorem c3_alias_not_equal :
    Equal id 10 (some (.vPtr .tInt (some (5, .vInt 7))))
      (some (.vPtr .tInt (some (5, .vInt 7)))) = .ok false ∧
    Compare id 10 (some (.vPtr .tInt (some (5, .vInt 7))))
      (some (.vPtr .tInt (some (5, .vInt 7)))) = .ok 1 ∧
    Equal id 30 (some r2d1) (some r2d1) = .ok false ∧
    Equal id 30 (some r2d1) (some r2d1b) = .ok true ∧
    Equal id 10 (some (.vInt 7)) (some (.vInt 7)) = .ok true :=
  ⟨rfl, rfl, rfl, rfl, rfl⟩

/-- C6 (failing input of the code bug): comparing two operands of the same
func type faults — the code compares `lv.Interface() == rv.Interface()`,
and Go `==` on two interfaces holding values of a func type panics
(`comparing uncomparable type`), even when both operands are the same
function — whereas raw pointers behave as documented (never less, equal
iff identical). -/
theorem c6_func_compare_faults :
    Less id 3 (some (.vFunc (.tFunc 0) 3)) (some (.vFunc (.tFunc 0) 3)) =
      .error .uncomparable ∧
    Equal id 3 (some (.vFunc (.tFunc 0) 3)) (some (.vFunc (.tFunc 0) 3)) =
      .error .uncomparable ∧
    Less id 3 (some (.vUptr 5)) (some (.vUptr 4)) = .ok false ∧
    Less id 3 (some (.vUptr 4)) (some (.vUptr 5)) = .ok false ∧
    Equal id 3 (some (.vUptr 4)) (some (.vUptr 4)) = .ok true ∧
    Equal id 3 (some (.vUptr 4)) (some (.vUptr 5)) = .ok false :=
  ⟨rfl, rfl, rfl, rfl, rfl, rfl⟩

/-- C5: floating-point ordering — NaN is less than every non-NaN value
(including negative infinity), two NaNs compare equal, negative infinity
is less than every other non-NaN value, two negative infinities compare
equal, and otherwise ordinary IEEE `<` and `==` decide; concretely
`Less(NaN, 2.0) = true`, `Less(2.0, NaN) = false`, `Equal(NaN, NaN) =
true`. -/
theorem c5_float_order :
    (∀ r : GoFloat, r.isNaN = false → f64lt .nan r = (true, false)) ∧
    f64lt .nan .nan = (false, true) ∧
    (∀ r : GoFloat, r.isNaN = false → r.isNinf = false →
      f64lt .ninf r = (true, false)) ∧
    f64lt .ninf .ninf = (false, true) ∧
    (∀ l r : GoFloat, l.isNaN = false → r.isNaN = false →
      l.isNinf = false → r.isNinf = false →
      f64lt l r = (fltLt l r, fltIeeeEq l r)) ∧
    Less id 3 (some (.vFloat .nan)) (some (.vFloat (.fin 2))) = .ok true ∧
    Less id 3 (some (.vFloat (.fin 2))) (some (.vFloat .nan)) = .ok false ∧
    Equal id 3 (some (.vFloat .nan)) (some (.vFloat .nan)) = .ok true := by
  refine ⟨?_, rfl, ?_, rfl, ?_, rfl, rfl, rfl⟩
  · intro r h
    cases r <;> simp_all [f64lt, GoFloat.isNaN, GoFloat.isNinf, fltLt, fltIeeeEq]
  · intro r h h2
    cases r <;> simp_all [f64lt, GoFloat.isNaN, GoFloat.isNinf, fltLt, fltIeeeEq]
  · intro l r h1 h2 h3 h4
    cases l <;> cases r <;>
      simp_all [f64lt, GoFloat.isNaN, GoFloat.isNinf, fltLt, fltIeeeEq]

/-- Witness for C5 at concrete inputs. -/
theorem c5_float_order_witness :
    f64lt .nan .ninf = (true, false) ∧
    f64lt .ninf (.fin 2) = (true, false) ∧
    f64lt (.fin 2) (.fin 3) = (fltLt (.fin 2) (.fin 3), fltIeeeEq (.fin 2) (.fin 3)) :=
  ⟨c5_float_order.1 .ninf rfl,
   c5_float_order.2.2.1 (.fin 2) rfl rfl,
   c5_float_order.2.2.2.2.1 (.fin 2) (.fin 3) rfl rfl rfl rfl⟩

/-- C1 (counterexample): `Less` and `Compare` are not deterministic on
keyed collections — on the maps `{1:1, 2:4}` and `{1:2, 2:3}` an
invocation whose values pass happens to iterate key `1` first reports
less, while one iterating key `2` first reports greater; both iteration
orders are legitimate (each permutes the entries). -/
theorem c1_counterexample :
    (revOrd lmapEntries).Perm lmapEntries ∧
    (revOrd rmapEntries).Perm rmapEntries ∧
    Less id 10 (some lmapC) (some rmapC) = .ok true ∧
    Less revOrd 10 (some lmapC) (some rmapC) = .ok false ∧
    Compare id 10 (some lmapC) (some rmapC) = .ok (-1) ∧
    Compare revOrd 10 (some lmapC) (some rmapC) = .ok 1 :=
  ⟨List.reverse_perm _, List.reverse_perm _, rfl, rfl, rfl, rfl⟩

/-- C2 (counterexample): the claim's sorted-key-order values pass
prescribes the verdict `(less, not equal)` on the maps `{1:1, 2:4}` vs
`{1:2, 2:3}` (ascending keys visit key `1` first), but an invocation whose
map iteration yields the entries backwards — a legitimate order — returns
`(not less, not equal)`: the code walks the values in iteration order, not
in sorted-key order. -/
theorem c2_counterexample :
    (revOrd lmapEntries).Perm lmapEntries ∧
    specSortedValuesPass (fun a b => lteqF id 10 [] a b) lmapEntries rmapEntries =
      .ok (true, false) ∧
    lteqF revOrd 12 [] lmapC rmapC = .ok (false, false) :=
  ⟨List.reverse_perm _, rfl, rfl⟩

/-- C7 (counterexample): the float fast path sorts with IEEE `<`, under
which NaN is never less than anything, so `Sort([]float64{1, NaN})` leaves
the slice as `[1, NaN]` — yet the engine order says NaN is less than `1`,
so the sorted sequence is not ascending under the OrderEngine less-than
relation (`Sort([]float64{2, NaN, 1})` even stays fully unsorted).  The
non-primitive fallback gives no engine-ascending guarantee either: the
engine's less is not asymmetric on keyed collections — under legitimate
map iteration orders `{1:1, 2:4}` is less than `{1:2, 2:3}` and vice
versa — so sorting the slice `[{1:2, 2:3}, {1:1, 2:4}]` with the entries
iterated backwards leaves it unchanged, although a `Less` invocation in
forward order reports its second element less than its first. -/
theorem c7_counterexample :
    SortE id 10 (.vSlice .tFloat [.vFloat (.fin 1), .vFloat .nan]) =
      .ok (true, .vSlice .tFloat [.vFloat (.fin 1), .vFloat .nan]) ∧
    (f64lt .nan (.fin 1)).1 = true ∧
    SortE id 10 (.vSlice .tFloat [.vFloat (.fin 2), .vFloat .nan, .vFloat (.fin 1)]) =
      .ok (true, .vSlice .tFloat [.vFloat (.fin 2), .vFloat .nan, .vFloat (.fin 1)]) ∧
    (f64lt (.fin 1) (.fin 2)).1 = true ∧
    (revOrd lmapEntries).Perm lmapEntries ∧
    (revOrd rmapEntries).Perm rmapEntries ∧
    SortE revOrd 12 (.vSlice (.tMap .tInt .tInt) [rmapC, lmapC]) =
      .ok (true, .vSlice (.tMap .tInt .tInt) [rmapC, lmapC]) ∧
    Less id 12 (some lmapC) (some rmapC) = .ok true ∧
    Less revOrd 12 (some rmapC) (some lmapC) = .ok true :=
  ⟨rfl, rfl, rfl, rfl, List.reverse_perm _, List.reverse_perm _, rfl, rfl, rfl⟩

/-- C9 (counterexample): a handle referencing a reference to a growable
sequence — a `**[]int` — faults `DistinctInPlace`'s argument validation
(the code requires `v.Elem()` itself to be a slice), while a direct
`*[]int` handle is accepted and processed. -/
theorem c9_counterexample :
    DistinctInPlaceE id 20 (some (.vPtr (.tPtr (.tSlice .tInt))
      (some (9, .vPtr (.tSlice .tInt) (some (10, ints [1])))))) =
      .error .invalidArg ∧
    DistinctInPlaceE id 20 (some (.vPtr (.tSlice .tInt) (some (0, ints [2, 1])))) =
      .ok (.vPtr (.tSlice .tInt) (some (0, ints [1, 2]))) :=
  ⟨rfl, rfl⟩

/-- C4 (amended): for two non-nil references, a side whose identity is
already in the visited set is cycle-closing, and the cycle-closing side is
reported as less: left-only cycle-closing yields `(true, false)`,
right-only (including a right reference aliasing the left one just marked)
yields `(false, false)`, and both cycle-closing yields `(false, true)`. -/
theorem c4_cycle_rule (ord : MapOrd) (n : Nat) (p : Ptrs) (et : GoType)
    (la ra : Nat) (ltv rtv : GoVal) :
    (la ∈ p → ra ∈ p →
      lteqKindF ord (n+1) p (.vPtr et (some (la, ltv))) (.vPtr et (some (ra, rtv))) =
        .ok (false, true)) ∧
    (la ∈ p → ra ∉ p →
      lteqKindF ord (n+1) p (.vPtr et (some (la, ltv))) (.vPtr et (some (ra, rtv))) =
        .ok (true, false)) ∧
    (la ∉ p → ra ∈ la :: p →
      lteqKindF ord (n+1) p (.vPtr et (some (la, ltv))) (.vPtr et (some (ra, rtv))) =
        .ok (false, false)) := by
  refine ⟨fun h1 h2 => ?_, fun h1 h2 => ?_, fun h1 h2 => ?_⟩ <;>
    simp [lteqKindF, hasOrAdd, h1, h2]

/-- Witness for C4 (amended) at concrete visited sets. -/
theorem c4_cycle_rule_witness :
    lteqKindF id 5 [7, 8] (.vPtr .tInt (some (7, .vInt 0)))
      (.vPtr .tInt (some (8, .vInt 0))) = .ok (false, true) ∧
    lteqKindF id 5 [7] (.vPtr .tInt (some (7, .vInt 0)))
      (.vPtr .tInt (some (8, .vInt 0))) = .ok (true, false) ∧
    lteqKindF id 5 [8] (.vPtr .tInt (some (7, .vInt 0)))
      (.vPtr .tInt (some (8, .vInt 0))) = .ok (false, false) :=
  ⟨(c4_cycle_rule id 4 [7, 8] .tInt 7 8 (.vInt 0) (.vInt 0)).1 (by decide) (by decide),
   (c4_cycle_rule id 4 [7] .tInt 7 8 (.vInt 0) (.vInt 0)).2.1 (by decide) (by decide),
   (c4_cycle_rule id 4 [8] .tInt 7 8 (.vInt 0) (.vInt 0)).2.2 (by decide) (by decide)⟩

/-- C4 (counterexample): the claim says a lone cycle-closing side is
reported as not less and not equal (greater); but with `7` already
visited, comparing a reference with identity `7` (cycle-closing) against a
fresh reference `8` yields `(less, not equal)` — and end to end, the
shallower cyclic value `newRecursive2(1)`, which cycle-closes sooner,
compares LESS than `newRecursive2(2)`, as the package's own tests
expect. -/
theorem c4_counterexample :
    lteqKindF id 5 [7] (.vPtr .tInt (some (7, .vInt 0)))
      (.vPtr .tInt (some (8, .vInt 0))) = .ok (true, false) ∧
    lteqF id 30 [] r2d1 r2d2 = .ok (true, false) ∧
    Less id 30 (some r2d1) (some r2d2) = .ok true ∧
    Less id 30 (some r2d2) (some r2d1) = .ok false ∧
    Equal id 30 (some r2d2) (some r2d1) = .ok false :=
  ⟨rfl, rfl, rfl, rfl, rfl⟩

/-- C9 (amended): `DistinctInPlace`'s argument validation faults exactly
on the handles that are not non-nil references directly to a growable
sequence: `argCheck` errors iff `goodArg` fails, an untyped nil faults
with the zero-value panic, and every other rejected handle (non-pointer,
nil pointer, pointer to a non-slice — including a pointer to a pointer to
a slice) faults with the invalid-argument panic. -/
theorem c9_fault_iff (ord : MapOrd) (n : Nat) (arg : Option GoVal) :
    ((∃ e, argCheck arg = .error e) ↔ goodArg arg = false) ∧
    (argCheck arg = .error .zeroValue ↔ arg = none) ∧
    (goodArg arg = false → arg ≠ none →
      DistinctInPlaceE ord n arg = .error .invalidArg) ∧
    (goodArg arg = false → arg = none →
      DistinctInPlaceE ord n arg = .error .zeroValue) := by
  rcases arg with _ | v
  · exact ⟨⟨fun _ => rfl, fun _ => ⟨.zeroValue, rfl⟩⟩, ⟨fun _ => rfl, fun _ => rfl⟩,
      fun _ h => absurd rfl h, fun _ _ => rfl⟩
  · have hnn : (some v : Option GoVal) ≠ none := by simp
    have key : (goodArg (some v) = true ∧ ∃ t, argCheck (some v) = .ok t) ∨
        (goodArg (some v) = false ∧ argCheck (some v) = .error .invalidArg) := by
      rcases v with b | i | u | f | ⟨re, im⟩ | s | ⟨et, bn⟩ | ⟨ft, fid⟩ | uid | ⟨et, tgt⟩
        | ⟨et, xs⟩ | ⟨et, xs⟩ | ⟨kt, vt, es⟩ | ⟨ty, fs⟩
      case vPtr =>
        rcases tgt with _ | ⟨a, tv⟩
        · exact .inr ⟨rfl, rfl⟩
        · by_cases hk : kindOf et = .kSlice
          · cases tv with
            | vSlice et2 xs =>
              exact .inl ⟨by simp [goodArg, hk], ⟨(et, a, et2, xs), by simp [argCheck, hk]⟩⟩
            | vBool b => exact .inr ⟨by simp [goodArg, hk], by simp [argCheck, hk]⟩
            | vInt i => exact .inr ⟨by simp [goodArg, hk], by simp [argCheck, hk]⟩
            | vUint u => exact .inr ⟨by simp [goodArg, hk], by simp [argCheck, hk]⟩
            | vFloat f => exact .inr ⟨by simp [goodArg, hk], by simp [argCheck, hk]⟩
            | vComplex re im => exact .inr ⟨by simp [goodArg, hk], by simp [argCheck, hk]⟩
            | vString s => exact .inr ⟨by simp [goodArg, hk], by simp [argCheck, hk]⟩
            | vChan et2 bn => exact .inr ⟨by simp [goodArg, hk], by simp [argCheck, hk]⟩
            | vFunc ft fid => exact .inr ⟨by simp [goodArg, hk], by simp [argCheck, hk]⟩
            | vUptr uid => exact .inr ⟨by simp [goodArg, hk], by simp [argCheck, hk]⟩
            | vPtr et2 tgt2 => exact .inr ⟨by simp [goodArg, hk], by simp [argCheck, hk]⟩
            | vArray et2 xs => exact .inr ⟨by simp [goodArg, hk], by simp [argCheck, hk]⟩
            | vMap kt vt es => exact .inr ⟨by simp [goodArg, hk], by simp [argCheck, hk]⟩
            | vStruct ty fs => exact .inr ⟨by simp [goodArg, hk], by simp [argCheck, hk]⟩
          · refine .inr ⟨?_, ?_⟩
            · rcases tv <;> simp [goodArg, hk]
            · rcases tv <;> simp [argCheck, hk]
      all_goals exact .inr ⟨rfl, rfl⟩
    rcases key with ⟨hg, t, hc⟩ | ⟨hg, hc⟩
    · refine ⟨⟨fun he => ?_, fun h => ?_⟩, ⟨fun h => ?_, fun h => absurd h hnn⟩,
        fun h _ => ?_, fun _ h => absurd h hnn⟩
      · obtain ⟨e, he⟩ := he
        rw [hc] at he
        exact absurd he (by simp)
      · rw [hg] at h
        exact absurd h (by simp)
      · rw [hc] at h
        exact absurd h (by simp)
      · rw [hg] at h
        exact absurd h (by simp)
    · refine ⟨⟨fun _ => hg, fun _ => ⟨.invalidArg, hc⟩⟩,
        ⟨fun h => ?_, fun h => absurd h hnn⟩, fun _ _ => ?_, fun _ h => absurd h hnn⟩
      · rw [hc] at h
        exact absurd h (by simp)
      · unfold DistinctInPlaceE
        rw [hc]
        rfl

/-- The head of an insertion step is the inserted element or the old head. -/
theorem insRev_head (lt : α → α → Bool) (x : α) (acc : List α) :
    (insRev lt x acc).head? = some x ∨ (insRev lt x acc).head? = acc.head? := by
  cases acc with
  | nil => exact .inl rfl
  | cons y rev =>
    by_cases h : lt x y
    · simp [insRev, h]
    · simp [insRev, h]

/-- An insertion step preserves the reversed-prefix chain invariant, for
an asymmetric comparator. -/
theorem insRev_chain (lt : α → α → Bool)
    (hasym : ∀ a b, lt a b = true → lt b a = false) (x : α) :
    ∀ acc : List α, acc.Chain' (fun a b => lt a b = false) →
      (insRev lt x acc).Chain' (fun a b => lt a b = false) := by
  intro acc
  induction acc with
  | nil => intro _; simp [insRev]
  | cons y rev ih =>
    intro h
    rw [List.chain'_cons'] at h
    by_cases hxy : lt x y
    · rw [insRev, if_pos hxy, List.chain'_cons']
      refine ⟨?_, ih h.2⟩
      intro z hz
      rcases insRev_head lt x rev with hh | hh
      · rw [hh] at hz
        cases hz
        exact hasym x y hxy
      · rw [hh] at hz
        exact h.1 z hz
    · rw [insRev, if_neg hxy, List.chain'_cons']
      refine ⟨?_, ?_⟩
      · intro z hz
        cases hz
        simpa using hxy
      · rw [List.chain'_cons']
        exact h

/-- The accumulated reversed prefix of Go's insertion sort always
satisfies the chain invariant. -/
theorem sortRev_chain (lt : α → α → Bool)
    (hasym : ∀ a b, lt a b = true → lt b a = false) :
    ∀ (l acc : List α), acc.Chain' (fun a b => lt a b = false) →
      (sortRev lt acc l).Chain' (fun a b => lt a b = false) := by
  intro l
  induction l with
  | nil => intro acc h; exact h
  | cons x rest ih =>
    intro acc h
    exact ih (insRev lt x acc) (insRev_chain lt hasym x acc h)

/-- Go's insertion sort produces a sequence with no adjacent inversion,
for an asymmetric comparator. -/
theorem goSort_chain (lt : α → α → Bool)
    (hasym : ∀ a b, lt a b = true → lt b a = false) (l : List α) :
    (goSort lt l).Chain' (fun a b => lt b a = false) := by
  rw [goSort, List.chain'_reverse]
  exact sortRev_chain lt hasym l [] (by simp)

/-- An insertion step permutes the inserted element onto the prefix. -/
theorem insRev_perm (lt : α → α → Bool) (x : α) :
    ∀ acc : List α, (insRev lt x acc).Perm (x :: acc) := by
  intro acc
  induction acc with
  | nil => simp [insRev]
  | cons y rev ih =>
    by_cases h : lt x y
    · rw [insRev, if_pos h]
      exact (ih.cons y).trans (List.Perm.swap x y rev)
    · rw [insRev, if_neg h]

/-- Go's insertion sort accumulates a permutation of prefix and input. -/
theorem sortRev_perm (lt : α → α → Bool) :
    ∀ l acc : List α, (sortRev lt acc l).Perm (acc ++ l) := by
  intro l
  induction l with
  | nil => intro acc; simp [sortRev]
  | cons x rest ih =>
    intro acc
    rw [sortRev]
    refine (ih (insRev lt x acc)).trans ?_
    refine (((insRev_perm lt x acc).append_right rest).trans ?_)
    exact List.perm_middle.symm.trans (by simp)

/-- Go's insertion sort permutes its input. -/
theorem goSort_perm (lt : α → α → Bool) (l : List α) : (goSort lt l).Perm l := by
  refine (List.reverse_perm _).trans ?_
  simpa using sortRev_perm lt l []

/-- An insertion step commutes with mapping, when the comparator factors
through the mapped function. -/
theorem insRev_map (f : α → β) (lt1 : α → α → Bool) (lt2 : β → β → Bool)
    (hf : ∀ a b, lt2 (f a) (f b) = lt1 a b) (x : α) :
    ∀ acc : List α, insRev lt2 (f x) (acc.map f) = (insRev lt1 x acc).map f := by
  intro acc
  induction acc with
  | nil => rfl
  | cons y rev ih =>
    simp only [List.map, insRev, hf]
    by_cases h : lt1 x y
    · simp [h, ih]
    · simp [h]

/-- Go's insertion sort commutes with mapping. -/
theorem sortRev_map (f : α → β) (lt1 : α → α → Bool) (lt2 : β → β → Bool)
    (hf : ∀ a b, lt2 (f a) (f b) = lt1 a b) :
    ∀ l acc : List α, sortRev lt2 (acc.map f) (l.map f) = (sortRev lt1 acc l).map f := by
  intro l
  induction l with
  | nil => intro acc; rfl
  | cons x rest ih =>
    intro acc
    rw [List.map, sortRev, sortRev, insRev_map f lt1 lt2 hf, ih]

/-- Go's insertion sort commutes with mapping. -/
theorem goSort_map (f : α → β) (lt1 : α → α → Bool) (lt2 : β → β → Bool)
    (hf : ∀ a b, lt2 (f a) (f b) = lt1 a b) (l : List α) :
    goSort lt2 (l.map f) = (goSort lt1 l).map f := by
  rw [goSort, goSort,
    show sortRev lt2 [] (l.map f) = (sortRev lt1 [] l).map f from by
      simpa using sortRev_map f lt1 lt2 hf l []]
  simp

/-- Comparing two int values under the engine is `i64lt`. -/
theorem lteqF_int (ord : MapOrd) (n : Nat) (p : Ptrs) (a b : Int) :
    lteqF ord (n+2) p (.vInt a) (.vInt b) = .ok (i64lt a b) := rfl

/-- Binding a success just applies the continuation. -/
theorem exc_bind_ok (a : α) (f : α → Except GoErr β) :
    (Except.ok a >>= f : Except GoErr β) = f a := rfl

/-- Binding a fault propagates the fault. -/
theorem exc_bind_error (e : GoErr) (f : α → Except GoErr β) :
    ((Except.error e : Except GoErr α) >>= f) = .error e := rfl

/-- The compaction loop on int elements is the spec's skip-equal pass. -/
theorem compactGo_ints (ord : MapOrd) (n : Nat) :
    ∀ (l : List Int) (x : Int),
      compactGo (fun a b => lteqF ord (n+2) [] a b) (.vInt x) (l.map .vInt) =
        .ok ((dedupFrom x l).map .vInt) := by
  intro l
  induction l with
  | nil => intro x; rfl
  | cons y ys ih =>
    intro x
    simp only [List.map_cons, compactGo, lteqF_int, exc_bind_ok]
    by_cases hxy : x = y
    · have hi : i64lt x y = (false, true) := by simp [i64lt, hxy]
      rw [hi, if_pos (show ((false, true) : Bool × Bool).2 = true from rfl), ih x]
      rw [dedupFrom, if_pos hxy.symm]
    · have hi : i64lt x y = (decide (x < y), false) := by simp [i64lt, hxy]
      rw [hi, if_neg (show ¬ ((decide (x < y), false) : Bool × Bool).2 = true by simp),
        ih y, exc_bind_ok]
      rw [dedupFrom, if_neg (Ne.symm hxy)]
      rfl

/-- `innerSort` on an `[]int` runs the int fast path. -/
theorem innerSort_ints (ord : MapOrd) (n : Nat) (p : Ptrs) (addr : Bool) (l : List Int) :
    innerSortF ord (n+1) p addr (.vSlice .tInt (l.map .vInt)) =
      .ok (true, .vSlice .tInt ((goSort (fun a b : Int => decide (a < b)) l).map .vInt)) := by
  have hmap : goSort (fastLt .kInt) (l.map .vInt) =
      (goSort (fun a b : Int => decide (a < b)) l).map .vInt :=
    goSort_map GoVal.vInt _ _ (fun a b => rfl) l
  simp only [innerSortF, sortSliceElems, kindOf, hmap, exc_bind_ok]

/-- `innerSort` on a `[]float64` runs the float fast path, whose
comparator is IEEE `<`. -/
theorem innerSort_floats (ord : MapOrd) (n : Nat) (p : Ptrs) (addr : Bool) (l : List GoFloat) :
    innerSortF ord (n+1) p addr (.vSlice .tFloat (l.map .vFloat)) =
      .ok (true, .vSlice .tFloat ((goSort fltLt l).map .vFloat)) := by
  have hmap : goSort (fastLt .kFloat) (l.map .vFloat) = (goSort fltLt l).map .vFloat :=
    goSort_map GoVal.vFloat _ _ (fun a b => rfl) l
  simp only [innerSortF, sortSliceElems, kindOf, hmap, exc_bind_ok]

/-- `innerSort` on a `[]bool` runs the bool fast path. -/
theorem innerSort_bools (ord : MapOrd) (n : Nat) (p : Ptrs) (addr : Bool) (l : List Bool) :
    innerSortF ord (n+1) p addr (.vSlice .tBool (l.map .vBool)) =
      .ok (true, .vSlice .tBool ((goSort (fun a b : Bool => !a && b) l).map .vBool)) := by
  have hmap : goSort (fastLt .kBool) (l.map .vBool) =
      (goSort (fun a b : Bool => !a && b) l).map .vBool :=
    goSort_map GoVal.vBool _ _ (fun a b => rfl) l
  simp only [innerSortF, sortSliceElems, kindOf, hmap, exc_bind_ok]

/-- `innerSort` on a `[]uint` runs the uint fast path. -/
theorem innerSort_uints (ord : MapOrd) (n : Nat) (p : Ptrs) (addr : Bool) (l : List Nat) :
    innerSortF ord (n+1) p addr (.vSlice .tUint (l.map .vUint)) =
      .ok (true, .vSlice .tUint ((goSort (fun a b : Nat => decide (a < b)) l).map .vUint)) := by
  have hmap : goSort (fastLt .kUint) (l.map .vUint) =
      (goSort (fun a b : Nat => decide (a < b)) l).map .vUint :=
    goSort_map GoVal.vUint _ _ (fun a b => rfl) l
  simp only [innerSortF, sortSliceElems, kindOf, hmap, exc_bind_ok]

/-- `innerSort` on a `[]string` runs the string fast path. -/
theorem innerSort_strs (ord : MapOrd) (n : Nat) (p : Ptrs) (addr : Bool)
    (l : List (List Nat)) :
    innerSortF ord (n+1) p addr (.vSlice .tString (l.map .vString)) =
      .ok (true, .vSlice .tString ((goSort bytesLt l).map .vString)) := by
  have hmap : goSort (fastLt .kString) (l.map .vString) =
      (goSort bytesLt l).map .vString :=
    goSort_map GoVal.vString _ _ (fun a b => rfl) l
  simp only [innerSortF, sortSliceElems, kindOf, hmap, exc_bind_ok]

/-- C8: `DistinctInPlace` on a pointer to a growable sequence first sorts
the sequence, then performs one left-to-right compaction pass that skips
elements engine-equal to the last kept element and truncates in place to
the kept prefix: on every `*[]int` handle the result is exactly
sort-then-skip-equal (`dedupFrom`), and concretely `[3,2,4,5,3,4,2,5]`
becomes `[2,3,4,5]`, `[1,2,2,2,3,3,4]` becomes `[1,2,3,4]`, and an empty
sequence is a no-op. -/
theorem c8_distinct :
    (∀ (ord : MapOrd) (n a : Nat) (l : List Int),
      DistinctInPlaceE ord (n+2) (some (.vPtr (.tSlice .tInt) (some (a, ints l)))) =
        .ok (.vPtr (.tSlice .tInt) (some (a, ints
          (match goSort (fun x y : Int => decide (x < y)) l with
           | [] => []
           | x :: rest => dedupFrom x rest))))) ∧
    DistinctInPlaceE id 20 (some (.vPtr (.tSlice .tInt) (some (0, ints [3,2,4,5,3,4,2,5])))) =
      .ok (.vPtr (.tSlice .tInt) (some (0, ints [2,3,4,5]))) ∧
    DistinctInPlaceE id 20 (some (.vPtr (.tSlice .tInt) (some (0, ints [1,2,2,2,3,3,4])))) =
      .ok (.vPtr (.tSlice .tInt) (some (0, ints [1,2,3,4]))) ∧
    DistinctInPlaceE id 20 (some (.vPtr (.tSlice .tInt) (some (0, ints [])))) =
      .ok (.vPtr (.tSlice .tInt) (some (0, ints []))) := by
  refine ⟨?_, rfl, rfl, rfl⟩
  intro ord n a l
  unfold DistinctInPlaceE
  rw [show argCheck (some (.vPtr (.tSlice .tInt) (some (a, ints l)))) =
      .ok (.tSlice .tInt, a, .tInt, l.map .vInt) from by simp [argCheck, ints, kindOf],
    exc_bind_ok]
  show (innerSortF ord (n+2) [] true (.vSlice .tInt (l.map .vInt)) >>= _) = _
  rw [innerSort_ints ord (n+1) [] true l, exc_bind_ok]
  cases hgs : goSort (fun x y : Int => decide (x < y)) l with
  | nil => rfl
  | cons x rest =>
    simp only [List.map_cons]
    show (compactGo (fun x y => lteqF ord (n+2) [] x y) (.vInt x) (rest.map .vInt) >>= _) = _
    rw [compactGo_ints ord n rest x, exc_bind_ok]
    rfl

/-- Transfer a chain along an implication valid on the list's members. -/
theorem chain'_imp_mem {R S : α → α → Prop} {P : α → Prop} :
    ∀ l : List α, (∀ a ∈ l, P a) → l.Chain' R →
      (∀ a b, P a → P b → R a b → S a b) → l.Chain' S := by
  intro l
  induction l with
  | nil => intro _ _ _; simp
  | cons x xs ih =>
    intro hp hc himp
    rw [List.chain'_cons'] at hc ⊢
    refine ⟨?_, ih (fun a ha => hp a (List.mem_cons_of_mem x ha)) hc.2 himp⟩
    intro y hy
    have hyx : y ∈ xs := List.mem_of_mem_head? hy
    exact himp x y (hp x (List.mem_cons_self x xs))
      (hp y (List.mem_cons_of_mem x hyx)) (hc.1 y hy)

/-- IEEE `<` is asymmetric. -/
theorem fltLt_asymm (a b : GoFloat) (h : fltLt a b = true) : fltLt b a = false := by
  cases a <;> cases b <;> simp_all [fltLt]
  exact h.le

/-- On non-NaN operands the engine's less flag is IEEE `<`. -/
theorem f64lt_fst_eq_fltLt (a b : GoFloat) (ha : a.isNaN = false) (hb : b.isNaN = false) :
    (f64lt a b).1 = fltLt a b := by
  cases a <;> cases b <;>
    simp_all [f64lt, GoFloat.isNaN, GoFloat.isNinf, fltLt, fltIeeeEq]

/-- The engine's less flag on ints is plain `<`. -/
theorem i64lt_fst (a b : Int) : (i64lt a b).1 = decide (a < b) := by
  rw [i64lt]
  by_cases h : a = b
  · simp [h]
  · simp [h]

/-- The engine's less flag on uints is plain `<`. -/
theorem u64lt_fst (a b : Nat) : (u64lt a b).1 = decide (a < b) := by
  rw [u64lt]
  by_cases h : a = b
  · simp [h]
  · simp [h]

/-- Byte order on strings is asymmetric. -/
theorem bytesLt_asymm : ∀ a b : List Nat, bytesLt a b = true → bytesLt b a = false := by
  intro a
  induction a with
  | nil =>
    intro b h
    cases b with
    | nil => simp [bytesLt] at h
    | cons y ys => simp [bytesLt]
  | cons x xs ih =>
    intro b h
    cases b with
    | nil => simp [bytesLt] at h
    | cons y ys =>
      rw [bytesLt] at h ⊢
      by_cases hxy : x < y
      · rw [if_neg (show ¬ y < x by omega), if_pos hxy]
      · rw [if_neg hxy] at h
        by_cases hyx : y < x
        · rw [if_pos hyx] at h
          exact absurd h (by simp)
        · rw [if_neg hyx] at h
          rw [if_neg hyx, if_neg hxy]
          exact ih ys h

/-- C7 (amended): a sequence of primitive element kind the traversal sorts
through a non-float fast path — bool, int, uint, or string — comes out as
a permutation of the input in ascending order under the OrderEngine
less-than relation: no element is `Less` than its predecessor.  The
floating-point fast path sorts by IEEE `<`, so a sorted float sequence is
a permutation that is engine-ascending only when it contains no NaN.  The
lteq fallback for non-primitive elements yields no such guarantee, since
the engine's less is not asymmetric on keyed collections (see the
counterexample). -/
theorem c7_sort_primitive (ord : MapOrd) (n : Nat) (p : Ptrs) (addr : Bool) :
    (∀ xs : List GoFloat,
      innerSortF ord (n+1) p addr (.vSlice .tFloat (xs.map .vFloat)) =
        .ok (true, .vSlice .tFloat ((goSort fltLt xs).map .vFloat)) ∧
      (goSort fltLt xs).Perm xs ∧
      ((∀ f ∈ xs, f.isNaN = false) →
        (goSort fltLt xs).Chain'
          (fun a b => Less ord 2 (some (.vFloat b)) (some (.vFloat a)) = .ok false))) ∧
    (∀ zs : List Int,
      innerSortF ord (n+1) p addr (.vSlice .tInt (zs.map .vInt)) =
        .ok (true, .vSlice .tInt ((goSort (fun a b : Int => decide (a < b)) zs).map .vInt)) ∧
      (goSort (fun a b : Int => decide (a < b)) zs).Perm zs ∧
      (goSort (fun a b : Int => decide (a < b)) zs).Chain'
        (fun a b => Less ord 2 (some (.vInt b)) (some (.vInt a)) = .ok false)) ∧
    (∀ bs : List Bool,
      innerSortF ord (n+1) p addr (.vSlice .tBool (bs.map .vBool)) =
        .ok (true, .vSlice .tBool ((goSort (fun a b : Bool => !a && b) bs).map .vBool)) ∧
      (goSort (fun a b : Bool => !a && b) bs).Perm bs ∧
      (goSort (fun a b : Bool => !a && b) bs).Chain'
        (fun a b => Less ord 2 (some (.vBool b)) (some (.vBool a)) = .ok false)) ∧
    (∀ us : List Nat,
      innerSortF ord (n+1) p addr (.vSlice .tUint (us.map .vUint)) =
        .ok (true, .vSlice .tUint ((goSort (fun a b : Nat => decide (a < b)) us).map .vUint)) ∧
      (goSort (fun a b : Nat => decide (a < b)) us).Perm us ∧
      (goSort (fun a b : Nat => decide (a < b)) us).Chain'
        (fun a b => Less ord 2 (some (.vUint b)) (some (.vUint a)) = .ok false)) ∧
    (∀ ss : List (List Nat),
      innerSortF ord (n+1) p addr (.vSlice .tString (ss.map .vString)) =
        .ok (true, .vSlice .tString ((goSort bytesLt ss).map .vString)) ∧
      (goSort bytesLt ss).Perm ss ∧
      (goSort bytesLt ss).Chain'
        (fun a b => Less ord 2 (some (.vString b)) (some (.vString a)) = .ok false)) := by
  refine ⟨?_, ?_, ?_, ?_, ?_⟩
  · intro xs
    refine ⟨innerSort_floats ord n p addr xs, goSort_perm fltLt xs, ?_⟩
    intro hnan
    have hchain := goSort_chain fltLt fltLt_asymm xs
    have hmem : ∀ a ∈ goSort fltLt xs, a.isNaN = false :=
      fun a ha => hnan a ((goSort_perm fltLt xs).mem_iff.mp ha)
    refine chain'_imp_mem (goSort fltLt xs) hmem hchain ?_
    intro a b hpa hpb hab
    show Except.ok ((f64lt b a).1) = .ok false
    rw [f64lt_fst_eq_fltLt b a hpb hpa, hab]
  · intro zs
    refine ⟨innerSort_ints ord n p addr zs, goSort_perm _ zs, ?_⟩
    have hchain := goSort_chain (fun a b : Int => decide (a < b))
      (fun a b h => by simp at h ⊢; omega) zs
    refine hchain.imp ?_
    intro a b hab
    show Except.ok ((i64lt b a).1) = .ok false
    rw [i64lt_fst, hab]
  · intro bs
    refine ⟨innerSort_bools ord n p addr bs, goSort_perm _ bs, ?_⟩
    have hchain := goSort_chain (fun a b : Bool => !a && b)
      (fun a b h => by cases a <;> cases b <;> simp_all) bs
    refine hchain.imp ?_
    intro a b hab
    show Except.ok (!b && a) = .ok false
    rw [hab]
  · intro us
    refine ⟨innerSort_uints ord n p addr us, goSort_perm _ us, ?_⟩
    have hchain := goSort_chain (fun a b : Nat => decide (a < b))
      (fun a b h => by simp at h ⊢; omega) us
    refine hchain.imp ?_
    intro a b hab
    show Except.ok ((u64lt b a).1) = .ok false
    rw [u64lt_fst, hab]
  · intro ss
    refine ⟨innerSort_strs ord n p addr ss, goSort_perm _ ss, ?_⟩
    have hchain := goSort_chain bytesLt bytesLt_asymm ss
    refine hchain.imp ?_
    intro a b hab
    show Except.ok (bytesLt b a) = .ok false
    rw [hab]

/-- Witness for C7 (amended) at a concrete NaN-free float slice. -/
theorem c7_sort_primitive_witness :
    innerSortF id 5 [] false (.vSlice .tFloat ([GoFloat.fin 2, GoFloat.fin 1].map .vFloat)) =
      .ok (true, .vSlice .tFloat ((goSort fltLt [GoFloat.fin 2, GoFloat.fin 1]).map .vFloat)) ∧
    (goSort fltLt [GoFloat.fin 2, GoFloat.fin 1]).Chain'
      (fun a b => Less id 2 (some (.vFloat b)) (some (.vFloat a)) = .ok false) :=
  ⟨((c7_sort_primitive id 4 [] false).1 [GoFloat.fin 2, GoFloat.fin 1]).1,
   ((c7_sort_primitive id 4 [] false).1 [GoFloat.fin 2, GoFloat.fin 1]).2.2 (by decide)⟩

/-- Witness for C9 (amended) at concrete handles. -/
theorem c9_fault_iff_witness :
    DistinctInPlaceE id 3 (some (.vInt 1)) = .error .invalidArg ∧
    DistinctInPlaceE id 3 none = .error .zeroValue :=
  ⟨((c9_fault_iff id 3 (some (.vInt 1))).2.2.1 (by decide) (by simp)),
   ((c9_fault_iff id 3 none).2.2.2 (by decide) rfl)⟩

/-- `i64lt` never reports less and equal at once. -/
theorem i64lt_inv (a b : Int) (lt : Bool) (h : i64lt a b = (lt, true)) : lt = false := by
  rw [i64lt] at h
  by_cases hab : a = b
  · rw [if_pos hab] at h
    simp only [Prod.mk.injEq] at h
    exact h.1.symm
  · rw [if_neg hab] at h
    simp only [Prod.mk.injEq] at h
    exact absurd h.2 (by simp)

/-- `u64lt` never reports less and equal at once. -/
theorem u64lt_inv (a b : Nat) (lt : Bool) (h : u64lt a b = (lt, true)) : lt = false := by
  rw [u64lt] at h
  by_cases hab : a = b
  · rw [if_pos hab] at h
    simp only [Prod.mk.injEq] at h
    exact h.1.symm
  · rw [if_neg hab] at h
    simp only [Prod.mk.injEq] at h
    exact absurd h.2 (by simp)

/-- `bytesLt` is irreflexive. -/
theorem bytesLt_irrefl : ∀ l : List Nat, bytesLt l l = false := by
  intro l
  induction l with
  | nil => rfl
  | cons a as ih => simp [bytesLt, ih]

/-- `f64lt` never reports less and equal at once. -/
theorem f64lt_inv (a b : GoFloat) (lt : Bool) (h : f64lt a b = (lt, true)) : lt = false := by
  cases a <;> cases b <;>
    simp_all [f64lt, GoFloat.isNaN, GoFloat.isNinf, fltLt, fltIeeeEq]
  obtain ⟨h1, h2⟩ := h
  subst h2
  simpa using h1.symm

/-- `c128lt` never reports less and equal at once. -/
theorem c128lt_inv (lre lim rre rim : GoFloat) (lt : Bool)
    (h : c128lt lre lim rre rim = (lt, true)) : lt = false := by
  simp only [c128lt] at h
  by_cases h2 : (f64lt lre rre).2 = true
  · rw [if_pos h2] at h
    exact f64lt_inv _ _ _ h
  · rw [if_neg h2] at h
    exact absurd (by rw [h]) h2

/-- `pairLoopFrom` preserves the at-most-one-flag invariant. -/
theorem pairLoopFrom_inv (cmp : GoVal → GoVal → Except GoErr (Bool × Bool))
    (hc : cmpInv cmp) :
    ∀ (l : List (GoVal × GoVal)) (init : Bool × Bool) (lt : Bool),
      (init.2 = true → init.1 = false) →
      pairLoopFrom cmp init l = .ok (lt, true) → lt = false := by
  intro l
  induction l with
  | nil =>
    intro init lt hinit h
    rw [pairLoopFrom] at h
    simp only [Except.ok.injEq] at h
    rw [h] at hinit
    simpa using hinit rfl
  | cons ab rest ih =>
    obtain ⟨a, b⟩ := ab
    intro init lt hinit h
    rw [pairLoopFrom] at h
    cases hr : cmp a b with
    | error e =>
      rw [hr, exc_bind_error] at h
      exact absurd h (by simp)
    | ok r =>
      obtain ⟨r1, r2⟩ := r
      rw [hr, exc_bind_ok] at h
      by_cases h2 : r2 = true
      · subst h2
        rw [if_pos rfl] at h
        exact ih (r1, true) lt (fun _ => hc a b r1 hr) h
      · rw [if_neg (by simpa using h2)] at h
        simp only [Except.ok.injEq, Prod.mk.injEq] at h
        exact absurd h.2 (by simp)

/-- `valuesLoop` preserves the at-most-one-flag invariant. -/
theorem valuesLoop_inv (cmp : GoVal → GoVal → Except GoErr (Bool × Bool))
    (hc : cmpInv cmp) (res : List (GoVal × GoVal)) :
    ∀ (l : List (GoVal × GoVal)) (init : Bool × Bool) (lt : Bool),
      (init.2 = true → init.1 = false) →
      valuesLoop cmp res init l = .ok (lt, true) → lt = false := by
  intro l
  induction l with
  | nil =>
    intro init lt hinit h
    rw [valuesLoop] at h
    simp only [Except.ok.injEq] at h
    rw [h] at hinit
    simpa using hinit rfl
  | cons ab rest ih =>
    obtain ⟨k, lval⟩ := ab
    intro init lt hinit h
    rw [valuesLoop] at h
    cases hl : mapLookup k res with
    | none =>
      simp only [hl] at h
      exact absurd h (by simp)
    | some rval =>
      simp only [hl] at h
      cases hr : cmp lval rval with
      | error e =>
        rw [hr, exc_bind_error] at h
        exact absurd h (by simp)
      | ok r =>
        obtain ⟨r1, r2⟩ := r
        rw [hr, exc_bind_ok] at h
        by_cases h2 : r2 = true
        · subst h2
          rw [if_pos rfl] at h
          exact ih (r1, true) lt (fun _ => hc lval rval r1 hr) h
        · rw [if_neg (by simpa using h2)] at h
          simp only [Except.ok.injEq, Prod.mk.injEq] at h
          exact absurd h.2 (by simp)

/-- `structFields` preserves the at-most-one-flag invariant. -/
theorem structFields_inv (cmp : GoVal → GoVal → Except GoErr (Bool × Bool)) :
    ∀ (ls rs : List (Bool × GoVal)) (lt : Bool),
      structFields cmp ls rs = .ok (lt, true) → lt = false := by
  intro ls
  induction ls with
  | nil =>
    intro rs lt h
    rw [structFields] at h
    simp only [Except.ok.injEq, Prod.mk.injEq] at h
    exact h.1.symm
  | cons f fs ih =>
    obtain ⟨exp, lf⟩ := f
    intro rs lt h
    cases rs with
    | nil =>
      rw [structFields] at h
      · simp only [Except.ok.injEq, Prod.mk.injEq] at h
        exact h.1.symm
      · simp
    | cons g gs =>
      obtain ⟨gexp, rf⟩ := g
      rw [structFields] at h
      by_cases he : exp = true
      · rw [if_pos he] at h
        cases hr : cmp lf rf with
        | error e =>
          rw [hr, exc_bind_error] at h
          exact absurd h (by simp)
        | ok r =>
          obtain ⟨r1, r2⟩ := r
          rw [hr, exc_bind_ok] at h
          by_cases h2 : r2 = true
          · subst h2
            rw [if_pos rfl] at h
            exact ih gs lt h
          · rw [if_neg (by simpa using h2)] at h
            simp only [Except.ok.injEq, Prod.mk.injEq] at h
            exact absurd h.2 (by simp)
      · rw [if_neg he] at h
        exact ih gs lt h

/-- `mapKeysStage` preserves the at-most-one-flag invariant. -/
theorem mapKeysStage_inv (cmp : GoVal → GoVal → Except GoErr (Bool × Bool))
    (hc : cmpInv cmp) (init : Bool × Bool)
    (hinit : init.2 = true → init.1 = false) (les res : List (GoVal × GoVal)) (lt : Bool)
    (h : mapKeysStage cmp init les res = .ok (lt, true)) : lt = false := by
  simp only [mapKeysStage] at h
  cases h1 : goSortM (fun a b => Except.map (fun r => r.1) (cmp a b))
      (les.map (fun e => e.1)) with
  | error e =>
    rw [h1, exc_bind_error] at h
    exact absurd h (by simp)
  | ok slk =>
    rw [h1, exc_bind_ok] at h
    cases h2 : goSortM (fun a b => Except.map (fun r => r.1) (cmp a b))
        (res.map (fun e => e.1)) with
    | error e =>
      rw [h2, exc_bind_error] at h
      exact absurd h (by simp)
    | ok srk =>
      rw [h2, exc_bind_ok] at h
      exact pairLoopFrom_inv cmp hc (slk.zip srk) init lt hinit h

/-- Unfolding of `lteq` at positive fuel. -/
theorem lteqF_succ (ord : MapOrd) (n : Nat) (p : Ptrs) (lv rv : GoVal) :
    lteqF ord (n+1) p lv rv =
      if typeOf lv ≠ typeOf rv then .error .typeMismatch
      else
        match lv, rv with
        | .vStruct _ lfs, .vStruct _ rfs =>
          structFields (fun a b => lteqKindF ord n p a b) lfs rfs
        | _, _ => lteqKindF ord n p lv rv := rfl

/-- Unfolding of `lteqKind` at positive fuel. -/
theorem lteqKindF_succ (ord : MapOrd) (n : Nat) (p : Ptrs) (lv rv : GoVal) :
    lteqKindF ord (n+1) p lv rv =
      match lv, rv with
      | .vBool l, .vBool r => .ok (!l && r, l == r)
      | .vInt l, .vInt r => .ok (i64lt l r)
      | .vUint l, .vUint r => .ok (u64lt l r)
      | .vFloat l, .vFloat r => .ok (f64lt l r)
      | .vComplex lre lim, .vComplex rre rim => .ok (c128lt lre lim rre rim)
      | .vChan _ ll, .vChan _ lr => .ok (decide (ll < lr), decide (ll = lr))
      | .vFunc _ _, .vFunc _ _ => .error .uncomparable
      | .vUptr l, .vUptr r => .ok (false, l == r)
      | .vString l, .vString r => .ok (bytesLt l r, l == r)
      | .vStruct _ _, .vStruct _ _ => lteqF ord n p lv rv
      | .vArray _ lxs, .vArray _ rxs =>
        if decide (lxs.length = rxs.length) = true then
          pairLoopFrom (fun a b => lteqF ord n p a b)
            (decide (lxs.length < rxs.length), decide (lxs.length = rxs.length))
            (lxs.zip rxs)
        else .ok (decide (lxs.length < rxs.length), decide (lxs.length = rxs.length))
      | .vSlice _ lxs, .vSlice _ rxs =>
        if decide (lxs.length = rxs.length) = true then
          pairLoopFrom (fun a b => lteqF ord n p a b)
            (decide (lxs.length < rxs.length), decide (lxs.length = rxs.length))
            (lxs.zip rxs)
        else .ok (decide (lxs.length < rxs.length), decide (lxs.length = rxs.length))
      | .vMap _ _ lents, .vMap _ _ rents =>
        if decide (lents.length = rents.length) = true then do
          let kres ← mapKeysStage (fun a b => lteqF ord n p a b)
            (decide (lents.length < rents.length), decide (lents.length = rents.length))
            (ord lents) (ord rents)
          if kres.2 then
            valuesLoop (fun a b => lteqF ord n p a b) rents kres (ord lents)
          else .ok kres
        else .ok (decide (lents.length < rents.length), decide (lents.length = rents.length))
      | .vPtr _ ltgt, .vPtr _ rtgt =>
        match ltgt, rtgt with
        | none, rt => .ok (rt.isSome, rt.isNone)
        | some _, none => .ok (false, false)
        | some (la, ltv), some (ra, rtv) =>
          let lres := hasOrAdd p la
          let rres := hasOrAdd lres.2 ra
          if lres.1 then .ok (!rres.1, rres.1)
          else if rres.1 then .ok (false, false)
          else lteqKindF ord n rres.2 ltv rtv
      | _, _ => .ok (false, false) := rfl

/-- The engine never reports less and equal at once (the "at most one of
the two is true" contract): whenever `lteq`/`lteqKind` succeed with the
equal flag set, the less flag is clear. -/
theorem lteq_inv (ord : MapOrd) :
    ∀ n : Nat,
      (∀ p lv rv lt, lteqF ord n p lv rv = .ok (lt, true) → lt = false) ∧
      (∀ p lv rv lt, lteqKindF ord n p lv rv = .ok (lt, true) → lt = false) := by
  intro n
  induction n with
  | zero =>
    exact ⟨fun p lv rv lt h => by simp [lteqF] at h,
      fun p lv rv lt h => by simp [lteqKindF] at h⟩
  | succ n ih =>
    obtain ⟨ihF, ihK⟩ := ih
    have hcm : ∀ p, cmpInv (fun a b => lteqF ord n p a b) := fun p a b lt h => ihF p a b lt h
    constructor
    · intro p lv rv lt h
      rw [lteqF_succ] at h
      split at h
      · exact absurd h (by simp)
      · split at h
        · exact structFields_inv _ _ _ _ h
        · exact ihK _ _ _ _ h
    · intro p lv rv lt h
      rw [lteqKindF_succ] at h
      split at h
      -- bool
      · simp only [Except.ok.injEq, Prod.mk.injEq] at h
        obtain ⟨h1, h2⟩ := h
        subst h1
        simp only [beq_iff_eq] at h2
        subst h2
        simp
      -- int
      · simp only [Except.ok.injEq] at h
        exact i64lt_inv _ _ _ h
      -- uint
      · simp only [Except.ok.injEq] at h
        exact u64lt_inv _ _ _ h
      -- float
      · simp only [Except.ok.injEq] at h
        exact f64lt_inv _ _ _ h
      -- complex
      · simp only [Except.ok.injEq] at h
        exact c128lt_inv _ _ _ _ _ h
      -- chan
      · simp only [Except.ok.injEq, Prod.mk.injEq] at h
        obtain ⟨h1, h2⟩ := h
        subst h1
        simp only [decide_eq_true_eq] at h2
        subst h2
        simp
      -- func
      · exact absurd h (by simp)
      -- uptr
      · simp only [Except.ok.injEq, Prod.mk.injEq] at h
        exact h.1.symm
      -- string
      · simp only [Except.ok.injEq, Prod.mk.injEq] at h
        obtain ⟨h1, h2⟩ := h
        subst h1
        simp only [beq_iff_eq] at h2
        subst h2
        simp [bytesLt_irrefl]
      -- struct
      · exact ihF _ _ _ _ h
      -- array
      · split at h
        · refine pairLoopFrom_inv _ (hcm p) _ _ _ ?_ h
          intro hq
          simp only [decide_eq_true_eq] at hq
          simp [hq]
        · simp only [Except.ok.injEq, Prod.mk.injEq] at h
          next hne =>
            obtain ⟨h1, h2⟩ := h
            simp only [decide_eq_true_eq] at h2
            exact absurd (by simpa using h2) hne
      -- slice
      · split at h
        · refine pairLoopFrom_inv _ (hcm p) _ _ _ ?_ h
          intro hq
          simp only [decide_eq_true_eq] at hq
          simp [hq]
        · simp only [Except.ok.injEq, Prod.mk.injEq] at h
          next hne =>
            obtain ⟨h1, h2⟩ := h
            simp only [decide_eq_true_eq] at h2
            exact absurd (by simpa using h2) hne
      -- map
      · rename_i kt vt lents kt2 vt2 rents
        split at h
        · cases hk : mapKeysStage (fun a b => lteqF ord n p a b)
              (decide (lents.length < rents.length), decide (lents.length = rents.length))
              (ord lents) (ord rents) with
          | error e =>
            rw [hk, exc_bind_error] at h
            exact absurd h (by simp)
          | ok kres =>
            obtain ⟨k1, k2⟩ := kres
            rw [hk, exc_bind_ok] at h
            have hkinv : k2 = true → k1 = false := by
              intro hk2
              subst hk2
              refine mapKeysStage_inv _ (hcm p) _ ?_ _ _ _ hk
              intro hq
              simp only [decide_eq_true_eq] at hq
              simp [hq]
            by_cases h2 : k2 = true
            · subst h2
              rw [if_pos rfl] at h
              exact valuesLoop_inv _ (hcm p) _ _ _ _ hkinv h
            · rw [if_neg (by simpa using h2)] at h
              simp only [Except.ok.injEq, Prod.mk.injEq] at h
              exact absurd h.2 h2
        · simp only [Except.ok.injEq, Prod.mk.injEq] at h
          next hne =>
            obtain ⟨h1, h2⟩ := h
            simp only [decide_eq_true_eq] at h2
            exact absurd (by simpa using h2) hne
      -- ptr
      · next _ ltgt _ rtgt =>
          rcases ltgt with _ | ⟨la, ltv⟩
          · rcases rtgt with _ | ⟨ra, rtv⟩ <;> simp_all
          · rcases rtgt with _ | ⟨ra, rtv⟩
            · exact absurd h (by simp)
            · simp only [] at h
              by_cases h1 : (hasOrAdd p la).1 = true
              · rw [if_pos h1] at h
                simp only [Except.ok.injEq, Prod.mk.injEq] at h
                obtain ⟨ha, hb⟩ := h
                subst ha
                rw [hb]
                simp
              · rw [if_neg h1] at h
                by_cases h2 : (hasOrAdd (hasOrAdd p la).2 ra).1 = true
                · rw [if_pos h2] at h
                  exact absurd h (by simp)
                · rw [if_neg h2] at h
                  exact ihK _ _ _ _ h
      -- default
      · exact absurd h (by simp)
/-- With the neutral initial pair, the code's values loop is exactly the
first-non-equal-pair-decides pass, provided the comparator never reports
less and equal at once. -/
theorem valuesLoop_eq_specIter (cmp : GoVal → GoVal → Except GoErr (Bool × Bool))
    (hc : cmpInv cmp) (res : List (GoVal × GoVal)) :
    ∀ l : List (GoVal × GoVal),
      valuesLoop cmp res (false, true) l = specIterValuesPass cmp res l := by
  intro l
  induction l with
  | nil => rfl
  | cons ab rest ih =>
    obtain ⟨k, lval⟩ := ab
    rw [valuesLoop, specIterValuesPass]
    cases hl : mapLookup k res with
    | none => simp only [hl]
    | some rval =>
      simp only [hl]
      cases hr : cmp lval rval with
      | error e => rw [exc_bind_error, exc_bind_error]
      | ok r =>
        obtain ⟨r1, r2⟩ := r
        rw [exc_bind_ok, exc_bind_ok]
        by_cases h2 : r2 = true
        · subst h2
          rw [if_pos rfl, if_pos rfl]
          have hr1 : r1 = false := hc lval rval r1 hr
          subst hr1
          exact ih
        · rw [if_neg (by simpa using h2), if_neg (by simpa using h2)]

/-- C2 (amended): when two keyed collections have equal entry counts and
the keys stage (sorted key lists) reports them equal, the overall verdict
is the values pass over the left map's entries in iteration order — each
left value against the right-side value under the same key — with the
first non-equal pair's verdict deciding, and equality if every pair is
equal; sorted order governs only the keys pass. -/
theorem c2_values_iter_order (ord : MapOrd) (n : Nat) (p : Ptrs)
    (kt vt : GoType) (les res : List (GoVal × GoVal))
    (hlen : les.length = res.length)
    (hkeys : mapKeysStage (fun a b => lteqF ord n p a b)
      (decide (les.length < res.length), decide (les.length = res.length))
      (ord les) (ord res) = .ok (false, true)) :
    lteqKindF ord (n+1) p (.vMap kt vt les) (.vMap kt vt res) =
      specIterValuesPass (fun a b => lteqF ord n p a b) res (ord les) := by
  have hred : lteqKindF ord (n+1) p (.vMap kt vt les) (.vMap kt vt res) =
      if decide (les.length = res.length) = true then do
        let kres ← mapKeysStage (fun a b => lteqF ord n p a b)
          (decide (les.length < res.length), decide (les.length = res.length))
          (ord les) (ord res)
        if kres.2 then
          valuesLoop (fun a b => lteqF ord n p a b) res kres (ord les)
        else .ok kres
      else .ok (decide (les.length < res.length), decide (les.length = res.length)) := rfl
  rw [hred, if_pos (by simp [hlen]), hkeys, exc_bind_ok, if_pos rfl]
  exact valuesLoop_eq_specIter (fun a b => lteqF ord n p a b)
    (fun a b lt h => (lteq_inv ord n).1 p a b lt h) res (ord les)

/-- Witness for C2 (amended) on concrete maps with equal key sets. -/
theorem c2_values_iter_order_witness :
    lteqKindF id 11 [] (.vMap .tInt .tInt [(.vInt 1, .vInt 5), (.vInt 2, .vInt 7)])
      (.vMap .tInt .tInt [(.vInt 2, .vInt 7), (.vInt 1, .vInt 6)]) =
      specIterValuesPass (fun a b => lteqF id 10 [] a b)
        [(.vInt 2, .vInt 7), (.vInt 1, .vInt 6)]
        (id [(.vInt 1, .vInt 5), (.vInt 2, .vInt 7)]) :=
  c2_values_iter_order id 10 [] .tInt .tInt
    [(.vInt 1, .vInt 5), (.vInt 2, .vInt 7)] [(.vInt 2, .vInt 7), (.vInt 1, .vInt 6)]
    rfl rfl

/-- Members of a map-free sequence are map-free. -/
theorem mapFreeL_mem : ∀ xs : List GoVal, mapFreeL xs = true → ∀ x ∈ xs, mapFree x = true := by
  intro xs
  induction xs with
  | nil => intro _ x hx; cases hx
  | cons y ys ih =>
    intro h x hx
    rw [mapFreeL, Bool.and_eq_true] at h
    rcases List.mem_cons.mp hx with rfl | hx2
    · exact h.1
    · exact ih h.2 x hx2

/-- Fields of a map-free struct are map-free. -/
theorem mapFreeF_mem : ∀ fs : List (Bool × GoVal), mapFreeF fs = true →
    ∀ f ∈ fs, mapFree f.2 = true := by
  intro fs
  induction fs with
  | nil => intro _ f hf; cases hf
  | cons g gs ih =>
    obtain ⟨b, v⟩ := g
    intro h f hf
    rw [mapFreeF, Bool.and_eq_true] at h
    rcases List.mem_cons.mp hf with rfl | hf2
    · exact h.1
    · exact ih h.2 f hf2

/-- `pairLoopFrom` only depends on the comparator's values on the pairs. -/
theorem pairLoopFrom_congr (cmp1 cmp2 : GoVal → GoVal → Except GoErr (Bool × Bool)) :
    ∀ l : List (GoVal × GoVal), (∀ ab ∈ l, cmp1 ab.1 ab.2 = cmp2 ab.1 ab.2) →
      ∀ init, pairLoopFrom cmp1 init l = pairLoopFrom cmp2 init l := by
  intro l
  induction l with
  | nil => intro _ init; rfl
  | cons ab rest ih =>
    obtain ⟨a, b⟩ := ab
    intro hl init
    rw [pairLoopFrom, pairLoopFrom,
      show cmp1 a b = cmp2 a b from hl (a, b) (List.mem_cons_self _ _)]
    cases cmp2 a b with
    | error e => rw [exc_bind_error, exc_bind_error]
    | ok r =>
      rw [exc_bind_ok, exc_bind_ok]
      by_cases h2 : r.2 = true
      · rw [if_pos h2, if_pos h2]
        exact ih (fun ab2 hab => hl ab2 (List.mem_cons_of_mem _ hab)) r
      · rw [if_neg h2, if_neg h2]

/-- `structFields` only depends on the comparator's values on the fields. -/
theorem structFields_congr (cmp1 cmp2 : GoVal → GoVal → Except GoErr (Bool × Bool)) :
    ∀ ls rs : List (Bool × GoVal),
      (∀ lf ∈ ls, ∀ rf ∈ rs, cmp1 lf.2 rf.2 = cmp2 lf.2 rf.2) →
      structFields cmp1 ls rs = structFields cmp2 ls rs := by
  intro ls
  induction ls with
  | nil => intro rs _; cases rs <;> rfl
  | cons f fs ih =>
    obtain ⟨exp, lf⟩ := f
    intro rs hl
    cases rs with
    | nil => rfl
    | cons g gs =>
      obtain ⟨gexp, rf⟩ := g
      have hrest : ∀ lf2 ∈ fs, ∀ rf2 ∈ gs, cmp1 lf2.2 rf2.2 = cmp2 lf2.2 rf2.2 :=
        fun lf2 hlf rf2 hrf =>
          hl lf2 (List.mem_cons_of_mem _ hlf) rf2 (List.mem_cons_of_mem _ hrf)
      show (if exp = true then _ else _) = (if exp = true then _ else _)
      by_cases he : exp = true
      · rw [if_pos he, if_pos he,
          show cmp1 lf rf = cmp2 lf rf from
            hl (exp, lf) (List.mem_cons_self _ _) (gexp, rf) (List.mem_cons_self _ _)]
        cases cmp2 lf rf with
        | error e => rw [exc_bind_error, exc_bind_error]
        | ok r =>
          rw [exc_bind_ok, exc_bind_ok]
          by_cases h2 : r.2 = true
          · rw [if_pos h2, if_pos h2]
            exact ih gs hrest
          · rw [if_neg h2, if_neg h2]
      · rw [if_neg he, if_neg he]
        exact ih gs hrest

/-- The sequence branch of `lteqKind` only depends on the comparator's
values on the zipped element pairs. -/
theorem seqBranch_congr (cmp1 cmp2 : GoVal → GoVal → Except GoErr (Bool × Bool))
    (lxs rxs : List GoVal)
    (hc : ∀ ab ∈ lxs.zip rxs, cmp1 ab.1 ab.2 = cmp2 ab.1 ab.2) :
    (if decide (lxs.length = rxs.length) = true then
        pairLoopFrom cmp1
          (decide (lxs.length < rxs.length), decide (lxs.length = rxs.length))
          (lxs.zip rxs)
      else .ok (decide (lxs.length < rxs.length), decide (lxs.length = rxs.length))) =
    (if decide (lxs.length = rxs.length) = true then
        pairLoopFrom cmp2
          (decide (lxs.length < rxs.length), decide (lxs.length = rxs.length))
          (lxs.zip rxs)
      else .ok (decide (lxs.length < rxs.length), decide (lxs.length = rxs.length))) := by
  by_cases h : decide (lxs.length = rxs.length) = true
  · rw [if_pos h, if_pos h]
    exact pairLoopFrom_congr cmp1 cmp2 (lxs.zip rxs) hc _
  · rw [if_neg h, if_neg h]

/-- A two-level conditional is congruent in its final branch. -/
theorem ifif_congr (b1 b2 : Bool) (x y z w : Except GoErr (Bool × Bool)) (h : z = w) :
    (if b1 = true then x else if b2 = true then y else z) =
    (if b1 = true then x else if b2 = true then y else w) := by
  by_cases h1 : b1 = true
  · rw [if_pos h1, if_pos h1]
  · rw [if_neg h1, if_neg h1]
    by_cases h2 : b2 = true
    · rw [if_pos h2, if_pos h2]
    · rw [if_neg h2, if_neg h2]
      exact h

/-- On map-free operands the engine does not consult the map iteration
order: any two orders produce identical results. -/
theorem lteq_det (ord1 ord2 : MapOrd) :
    ∀ n : Nat,
      (∀ p lv rv, mapFree lv = true → mapFree rv = true →
        lteqF ord1 n p lv rv = lteqF ord2 n p lv rv) ∧
      (∀ p lv rv, mapFree lv = true → mapFree rv = true →
        lteqKindF ord1 n p lv rv = lteqKindF ord2 n p lv rv) := by
  intro n
  induction n with
  | zero => exact ⟨fun _ _ _ _ _ => rfl, fun _ _ _ _ _ => rfl⟩
  | succ n ih =>
    obtain ⟨ihF, ihK⟩ := ih
    constructor
    · intro p lv rv hfl hfr
      by_cases ht : typeOf lv ≠ typeOf rv
      · rw [lteqF_succ, lteqF_succ, if_pos ht, if_pos ht]
      · rw [lteqF_succ, lteqF_succ, if_neg ht, if_neg ht]
        cases lv <;> cases rv <;>
          first
            | exact ihK p _ _ hfl hfr
            | exact structFields_congr _ _ _ _
                (fun lf hlf rf hrf => ihK p lf.2 rf.2
                  (mapFreeF_mem _ hfl lf hlf) (mapFreeF_mem _ hfr rf hrf))
    · intro p lv rv hfl hfr
      cases lv <;> cases rv
      case vMap.vMap kt vt es kt2 vt2 es2 =>
        exact absurd hfl (by simp [mapFree])
      case vStruct.vStruct ty lfs ty2 rfs =>
        exact ihF p _ _ hfl hfr
      case vArray.vArray et lxs et2 rxs =>
        exact seqBranch_congr _ _ _ _
          (fun ab hab => ihF p ab.1 ab.2
            (mapFreeL_mem _ hfl ab.1 (List.of_mem_zip hab).1)
            (mapFreeL_mem _ hfr ab.2 (List.of_mem_zip hab).2))
      case vSlice.vSlice et lxs et2 rxs =>
        exact seqBranch_congr _ _ _ _
          (fun ab hab => ihF p ab.1 ab.2
            (mapFreeL_mem _ hfl ab.1 (List.of_mem_zip hab).1)
            (mapFreeL_mem _ hfr ab.2 (List.of_mem_zip hab).2))
      case vPtr.vPtr et ltgt et2 rtgt =>
        rcases ltgt with _ | ⟨la, ltv⟩ <;> rcases rtgt with _ | ⟨ra, rtv⟩ <;>
          first
            | rfl
            | exact ifif_congr _ _ _ _ _ _ (ihK _ ltv rtv hfl hfr)
      all_goals rfl

/-- C1 (amended): `Less`, `Equal` and `Compare` are deterministic on
operands containing no keyed collections — the result is independent of
the map iteration order, so any two invocations agree; once a keyed
collection is present, `Less`/`Compare` can differ between invocations
(see the counterexample). -/
theorem c1_det_mapfree (ord1 ord2 : MapOrd) (n : Nat) (lv rv : GoVal)
    (hl : mapFree lv = true) (hr : mapFree rv = true) :
    Less ord1 n (some lv) (some rv) = Less ord2 n (some lv) (some rv) ∧
    Equal ord1 n (some lv) (some rv) = Equal ord2 n (some lv) (some rv) ∧
    Compare ord1 n (some lv) (some rv) = Compare ord2 n (some lv) (some rv) := by
  have h := (lteq_det ord1 ord2 n).1 [] lv rv hl hr
  exact ⟨by simp [Less, lteqTop, h], by simp [Equal, lteqTop, h],
    by simp [Compare, lteqTop, h]⟩

/-- Witness for C1 (amended) on a concrete map-free operand pair, with the
identity and the reversing iteration orders. -/
theorem c1_det_mapfree_witness :
    Less id 10 (some (ints [2, 1])) (some (ints [1, 2])) =
      Less revOrd 10 (some (ints [2, 1])) (some (ints [1, 2])) ∧
    Equal id 10 (some (ints [2, 1])) (some (ints [1, 2])) =
      Equal revOrd 10 (some (ints [2, 1])) (some (ints [1, 2])) ∧
    Compare id 10 (some (ints [2, 1])) (some (ints [1, 2])) =
      Compare revOrd 10 (some (ints [2, 1])) (some (ints [1, 2])) :=
  c1_det_mapfree id revOrd 10 (ints [2, 1]) (ints [1, 2]) rfl rfl

end Types
